import Mathlib

set_option autoImplicit false

/-!
Verification development for the corosync configuration facade
(`pcs/lib/corosync/config_facade.py`).

The facade operates on a tree of configuration sections.  The tree type and
its primitive operations come from `config_parser.Section`, which is not part
of the sources here; they are modelled from the specification (section tree
model, §3 and §4.2 of the spec).  Everything else is a direct functional
transcription of `config_facade.py`: mutation of the tree in place becomes
functions from the root section to a new root section, and operations that
raise become functions into `Except`.
-/

/-- Modelled from the spec: `config_parser.Section` (not included in the
sources).  A section has a `name`, an ordered sequence of
`(attribute name, value)` pairs in which duplicates are allowed and insertion
order is preserved, and an ordered list of child sections. -/
inductive Section where
| mk (name : String) (attrs : List (String × String)) (children : List Section)

/-- Name of a section. -/
def Section.name : Section → String
| .mk n _ _ => n

/-- Attribute list of a section, in order. -/
def Section.attrs : Section → List (String × String)
| .mk _ a _ => a

/-- Child sections of a section, in order. -/
def Section.children : Section → List Section
| .mk _ _ c => c

@[simp] theorem Section.name_mk (n : String) (a : List (String × String))
    (c : List Section) : (Section.mk n a c).name = n := rfl

@[simp] theorem Section.attrs_mk (n : String) (a : List (String × String))
    (c : List Section) : (Section.mk n a c).attrs = a := rfl

@[simp] theorem Section.children_mk (n : String) (a : List (String × String))
    (c : List Section) : (Section.mk n a c).children = c := rfl

/-- Modelled from the spec: `Section.get_attributes()` returns the full
attribute list. -/
def Section.get_attributes (s : Section) : List (String × String) :=
  s.attrs

/-- Modelled from the spec: `Section.get_attributes(name)` returns the
attributes with the given name, in order. -/
def Section.get_attributes_named (s : Section) (n : String) :
    List (String × String) :=
  s.attrs.filter (fun a => a.1 == n)

/-- Modelled from the spec: `Section.get_sections()` returns the child
sections. -/
def Section.get_sections (s : Section) : List Section :=
  s.children

/-- Modelled from the spec: `Section.get_sections(name)` returns the child
sections with the given name, in order. -/
def Section.get_sections_named (s : Section) (n : String) : List Section :=
  s.children.filter (fun c => c.name == n)

/-- Modelled from the spec: setting an attribute on the raw attribute list.
The attribute is set/overwritten: the first occurrence of the name has its
value replaced and any later occurrences of the name are removed, so the
attribute occurs exactly once afterwards; if the name does not occur, the
pair is appended at the end. -/
def setAttrList (n v : String) : List (String × String) → List (String × String)
| [] => [(n, v)]
| a :: rest =>
    if a.1 == n then (n, v) :: rest.filter (fun b => b.1 != n)
    else a :: setAttrList n v rest

/-- Modelled from the spec: `Section.set_attribute(name, value)`. -/
def Section.set_attribute (s : Section) (n v : String) : Section :=
  .mk s.name (setAttrList n v s.attrs) s.children

/-- Modelled from the spec: `Section.del_attributes_by_name(name)` removes all
attributes with the given name. -/
def Section.del_attributes_by_name (s : Section) (n : String) : Section :=
  .mk s.name (s.attrs.filter (fun a => a.1 != n)) s.children

/-- Modelled from the spec: a section is `empty` when it has no attributes and
no child sections. -/
def Section.empty (s : Section) : Bool :=
  s.attrs.isEmpty && s.children.isEmpty

/-- Modelled from the spec: `Section.add_section(child)` appends a child
section at the end. -/
def Section.add_section (s : Section) (c : Section) : Section :=
  .mk s.name s.attrs (s.children ++ [c])

/-- Python's `str.isdigit` restricted to ASCII: true iff the string is
nonempty and consists of decimal digits only. -/
def py_isdigit (s : String) : Bool :=
  !s.isEmpty && s.toList.all Char.isDigit

/-- Value of a decimal digit string (Python `int(value)` after an `isdigit`
check). -/
def py_int (s : String) : Nat :=
  s.toList.foldl (fun acc ch => acc * 10 + (ch.toNat - 48)) 0

/-- Strict lexicographic order on character lists by code point. -/
def charListLt : List Char → List Char → Bool
| [], [] => false
| [], _ :: _ => true
| _ :: _, [] => false
| a :: as, b :: bs =>
    if a.toNat < b.toNat then true
    else if b.toNat < a.toNat then false
    else charListLt as bs

/-- Non-strict lexicographic order on character lists by code point. -/
def charListLe : List Char → List Char → Bool
| [], _ => true
| _ :: _, [] => false
| a :: as, b :: bs =>
    if a.toNat < b.toNat then true
    else if b.toNat < a.toNat then false
    else charListLe as bs

/-- Stable comparison used to model Python's `sorted(options.items())`:
lexicographic on the (name, value) pair, strings compared by code point. -/
def pairLe (a b : String × String) : Bool :=
  charListLt a.1.toList b.1.toList
    || (a.1 == b.1 && charListLe a.2.toList b.2.toList)

/-- Stable insertion used by `sortOpts`. -/
def insOpt (a : String × String) :
    List (String × String) → List (String × String)
| [] => [a]
| b :: l => if pairLe a b then a :: b :: l else b :: insOpt a l

/-- Python's `sorted(options.items())`: stable sort of the option pairs. -/
def sortOpts : List (String × String) → List (String × String)
| [] => []
| a :: l => insOpt a (sortOpts l)

/-- Modelled from the spec: a structured problem record
(`pcs.lib.errors.ReportItem`, not included in the sources): a stable code, a
forceable flag, and a structured info payload.  All records produced here have
severity error, so the severity is not represented.  Message templates are
presentation only and are not represented. -/
inductive InfoVal where
| str (v : String)
| strList (vs : List String)
deriving DecidableEq

/-- Modelled from the spec: a problem record. -/
structure ReportItem where
  code : String
  forceable : Bool
  info : List (String × InfoVal)
deriving DecidableEq

/-- Stable report codes (module `pcs.common.report_codes`, not included in the
sources; the codes are opaque identifiers). -/
def report_codes.INVALID_OPTION : String := "INVALID_OPTION"

/-- Stable report code for an invalid option value. -/
def report_codes.INVALID_OPTION_VALUE : String := "INVALID_OPTION_VALUE"

/-- Stable report code for a missing required option. -/
def report_codes.REQUIRED_OPTION_IS_MISSING : String := "REQUIRED_OPTION_IS_MISSING"

/-- Stable report code for adding a quorum device when one exists. -/
def report_codes.QDEVICE_ALREADY_DEFINED : String := "QDEVICE_ALREADY_DEFINED"

/-- Stable report code for updating/removing a missing quorum device. -/
def report_codes.QDEVICE_NOT_DEFINED : String := "QDEVICE_NOT_DEFINED"

/-- Failure of a facade write operation: a `LibraryError` raised directly by
the facade, the report processor raising on the submitted problem list, or the
`IndexError` Python raises when `__set_section_options` is given an empty
section list together with a nonempty option map. -/
inductive FacadeErr where
| libraryError (item : ReportItem)
| processorRaised (items : List ReportItem)
| indexError
deriving DecidableEq

/-- Modelled from the spec: `NodeAddresses` built by `get_nodes` (class
`pcs.lib.node.NodeAddresses`, not included in the sources): optional ring
addresses, name and node id. -/
structure NodeAddresses where
  ring0_addr : Option String
  ring1_addr : Option String
  name : Option String
  id : Option String
deriving DecidableEq

/-- One step of filling the `node_data` dict in `get_nodes`: an attribute
whose name is one of the four tracked keys overwrites that key (last
occurrence wins); other attributes are ignored. -/
def nodeDataStep (acc : NodeAddresses) (a : String × String) : NodeAddresses :=
  if a.1 == "ring0_addr" then ⟨some a.2, acc.ring1_addr, acc.name, acc.id⟩
  else if a.1 == "ring1_addr" then ⟨acc.ring0_addr, some a.2, acc.name, acc.id⟩
  else if a.1 == "name" then ⟨acc.ring0_addr, acc.ring1_addr, some a.2, acc.id⟩
  else if a.1 == "nodeid" then ⟨acc.ring0_addr, acc.ring1_addr, acc.name, some a.2⟩
  else acc

/-- Projection of one `node` section to a `NodeAddresses`. -/
def nodeOf (node : Section) : NodeAddresses :=
  node.attrs.foldl nodeDataStep ⟨none, none, none, none⟩

/-- `ConfigFacade.get_nodes`: one `NodeAddresses` per `node` child of each
`nodelist` child of the root, in document order. -/
def get_nodes (c : Section) : List NodeAddresses :=
  ((c.get_sections_named "nodelist").map
    (fun nl => (nl.get_sections_named "node").map nodeOf)).flatten

/-- The class constant `ConfigFacade.QUORUM_OPTIONS`. -/
def QUORUM_OPTIONS : List String :=
  ["auto_tie_breaker", "last_man_standing", "last_man_standing_window",
   "wait_for_all"]

/-- `ConfigFacade.has_quorum_device`: true iff some `quorum` child of the root
has a `device` child with at least one `model` attribute. -/
def has_quorum_device (c : Section) : Bool :=
  (c.get_sections_named "quorum").any fun q =>
    (q.get_sections_named "device").any fun d =>
      !(d.get_attributes_named "model").isEmpty

/-- Python dict assignment `d[k] = v` on an association list with unique keys:
overwrite in place if present, else append. -/
def pyDictSet (d : List (String × String)) (k v : String) :
    List (String × String) :=
  if d.any (fun p => p.1 == k) then
    d.map (fun p => if p.1 == k then (k, v) else p)
  else d ++ [(k, v)]

/-- Python `dict.update`: apply `pyDictSet` for each pair of the update list
in order. -/
def pyDictUpdate (d new : List (String × String)) : List (String × String) :=
  new.foldl (fun d p => pyDictSet d p.1 p.2) d

/-- Assignment into the `model_options` dict-of-dicts of
`get_quorum_device_settings`. -/
def moSet (mo : List (String × List (String × String))) (k : String)
    (v : List (String × String)) : List (String × List (String × String)) :=
  if mo.any (fun p => p.1 == k) then
    mo.map (fun p => if p.1 == k then (k, v) else p)
  else mo ++ [(k, v)]

/-- Lookup in the `model_options` dict-of-dicts, defaulting to the empty
dict (this also covers the `if subsection.name not in model_options` branch
and the final `model_options.get(model, {})`). -/
def moGet (mo : List (String × List (String × String))) (k : String) :
    List (String × String) :=
  match mo.find? (fun p => p.1 == k) with
  | some p => p.2
  | none => []

/-- State threaded through `get_quorum_device_settings`: current model,
model-options dict-of-dicts, generic-options dict. -/
structure QdState where
  model : Option String
  model_options : List (String × List (String × String))
  generic_options : List (String × String)

/-- Processing of one attribute of a `device` section in
`get_quorum_device_settings`. -/
def qdAttrStep (st : QdState) (a : String × String) : QdState :=
  if a.1 == "model" then ⟨some a.2, st.model_options, st.generic_options⟩
  else ⟨st.model, st.model_options, pyDictSet st.generic_options a.1 a.2⟩

/-- Processing of one child subsection of a `device` section in
`get_quorum_device_settings`. -/
def qdSubStep (st : QdState) (sub : Section) : QdState :=
  ⟨st.model,
   moSet st.model_options sub.name
     (pyDictUpdate (moGet st.model_options sub.name) sub.get_attributes),
   st.generic_options⟩

/-- Processing of one `device` section in `get_quorum_device_settings`. -/
def qdDeviceStep (st : QdState) (d : Section) : QdState :=
  (d.get_sections).foldl qdSubStep (d.get_attributes.foldl qdAttrStep st)

/-- `ConfigFacade.get_quorum_device_settings`: scans all `quorum` → `device`
sections and returns `(model, model_options.get(model, {}),
generic_options)`. -/
def get_quorum_device_settings (c : Section) :
    Option String × List (String × String) × List (String × String) :=
  let st := (c.get_sections_named "quorum").foldl
    (fun st q => (q.get_sections_named "device").foldl qdDeviceStep st)
    ⟨none, [], []⟩
  (st.model,
   match st.model with
   | some m => moGet st.model_options m
   | none => [],
   st.generic_options)

/-- Joined representation of allowed names, as in `" or ".join(...)`. -/
def joinOr (l : List String) : String :=
  String.intercalate " or " l

/-- One sorted item of `__validate_quorum_options`. -/
def validate_quorum_option_item (nv : String × String) : List ReportItem :=
  if !(QUORUM_OPTIONS.contains nv.1) then
    [⟨report_codes.INVALID_OPTION, false,
      [("option", .str nv.1), ("type", .str "quorum"),
       ("allowed_raw", .strList QUORUM_OPTIONS),
       ("allowed", .str (joinOr QUORUM_OPTIONS))]⟩]
  else if nv.2 == "" then []
  else if nv.1 == "last_man_standing_window" then
    if !py_isdigit nv.2 then
      [⟨report_codes.INVALID_OPTION_VALUE, false,
        [("option_name", .str nv.1), ("option_value", .str nv.2),
         ("allowed_values_raw", .strList ["integer"]),
         ("allowed_values", .str "integer")]⟩]
    else []
  else
    if !(nv.2 == "0" || nv.2 == "1") then
      [⟨report_codes.INVALID_OPTION_VALUE, false,
        [("option_name", .str nv.1), ("option_value", .str nv.2),
         ("allowed_values_raw", .strList ["0", "1"]),
         ("allowed_values", .str (joinOr ["0", "1"]))]⟩]
    else []

/-- `ConfigFacade.__validate_quorum_options`. -/
def validate_quorum_options (options : List (String × String)) :
    List ReportItem :=
  ((sortOpts options).map validate_quorum_option_item).flatten

/-- `ConfigFacade.__validate_quorum_device_model`: only `"net"` is allowed;
any other model is a forceable error. -/
def validate_quorum_device_model (model : String) : List ReportItem :=
  if !(model == "net") then
    [⟨report_codes.INVALID_OPTION_VALUE, true,
      [("option_name", .str "model"), ("option_value", .str model),
       ("allowed_values_raw", .strList ["net"]),
       ("allowed_values", .str (joinOr ["net"]))]⟩]
  else []

/-- Allowed names of the net model options, sorted
(`sorted(allowed_options)`). -/
def net_allowed_options : List String :=
  ["algorithm", "connect_timeout", "force_ip_version", "host", "port",
   "tie_breaker"]

/-- The report item for a missing required net model option. -/
def net_required_missing_item (n : String) : ReportItem :=
  ⟨report_codes.REQUIRED_OPTION_IS_MISSING, false, [("name", .str n)]⟩

/-- An invalid-value report item of the net model option grammar; all of them
are forceable. -/
def net_bad_value_item (n v : String) (allowed_raw : List String)
    (allowed : String) : ReportItem :=
  ⟨report_codes.INVALID_OPTION_VALUE, true,
   [("option_name", .str n), ("option_value", .str v),
    ("allowed_values_raw", .strList allowed_raw),
    ("allowed_values", .str allowed)]⟩

/-- One sorted item of `__validate_quorum_device_model_net_options`; the node
id list comes from `get_nodes` on the facade's tree. -/
def validate_net_option_item (node_ids : List (Option String))
    (nv : String × String) : List ReportItem :=
  let n := nv.1
  let v := nv.2
  if !(net_allowed_options.contains n) then
    [⟨report_codes.INVALID_OPTION, true,
      [("option", .str n), ("type", .str "quorum device model"),
       ("allowed_raw", .strList net_allowed_options),
       ("allowed", .str (joinOr net_allowed_options))]⟩]
  else if v == "" && !(n == "host") then []
  else
    (if v == "" && n == "host" then [net_required_missing_item n] else [])
    ++ (if n == "algorithm" && !(["2nodelms", "ffsplit", "lms"].contains v) then
          [net_bad_value_item n v ["2nodelms", "ffsplit", "lms"]
            (joinOr ["2nodelms", "ffsplit", "lms"])]
        else [])
    ++ (if n == "connect_timeout"
           && !(py_isdigit v && 1000 ≤ py_int v && py_int v ≤ 120000) then
          [net_bad_value_item n v ["1000-120000"] "1000-120000"]
        else [])
    ++ (if n == "force_ip_version" && !(["0", "4", "6"].contains v) then
          [net_bad_value_item n v ["0", "4", "6"] (joinOr ["0", "4", "6"])]
        else [])
    ++ (if n == "port" && !(py_isdigit v && 1 ≤ py_int v && py_int v ≤ 65535) then
          [net_bad_value_item n v ["1-65535"] "1-65535"]
        else [])
    ++ (if n == "tie_breaker"
           && !(v == "lowest" || v == "highest"
                || node_ids.contains (some v)) then
          [net_bad_value_item n v ["lowest", "highest", "valid node id"]
            (joinOr ["lowest", "highest", "valid node id"])]
        else [])

/-- `ConfigFacade.__validate_quorum_device_model_net_options`.  The required
option is `host`; the missing-required check runs only when `need_required`
is set. -/
def validate_quorum_device_model_net_options (c : Section)
    (model_options : List (String × String)) (need_required : Bool) :
    List ReportItem :=
  (if need_required && !(model_options.any (fun p => p.1 == "host")) then
     [net_required_missing_item "host"]
   else [])
  ++ ((sortOpts model_options).map
        (validate_net_option_item ((get_nodes c).map NodeAddresses.id))).flatten

/-- `ConfigFacade.__validate_quorum_device_model_options`: dispatches on the
model; only `"net"` has a grammar, every other model (including the absent
model of `update_quorum_device`) produces no problems. -/
def validate_quorum_device_model_options (c : Section)
    (model : Option String) (model_options : List (String × String))
    (need_required : Bool) : List ReportItem :=
  if model == some "net" then
    validate_quorum_device_model_net_options c model_options need_required
  else []

/-- One sorted item of `__validate_quorum_device_generic_options`.  An unknown
name is forceable unless it is literally `model`. -/
def validate_generic_option_item (nv : String × String) : List ReportItem :=
  if !(["sync_timeout", "timeout"].contains nv.1) then
    [⟨report_codes.INVALID_OPTION, nv.1 != "model",
      [("option", .str nv.1), ("type", .str "quorum device"),
       ("allowed_raw", .strList ["sync_timeout", "timeout"]),
       ("allowed", .str (joinOr ["sync_timeout", "timeout"]))]⟩]
  else if nv.2 == "" then []
  else if !py_isdigit nv.2 then
    [⟨report_codes.INVALID_OPTION_VALUE, true,
      [("option_name", .str nv.1), ("option_value", .str nv.2),
       ("allowed_values_raw", .strList ["integer"]),
       ("allowed_values", .str "integer")]⟩]
  else []

/-- `ConfigFacade.__validate_quorum_device_generic_options`. -/
def validate_quorum_device_generic_options
    (generic_options : List (String × String)) : List ReportItem :=
  ((sortOpts generic_options).map validate_generic_option_item).flatten

/-- `ConfigFacade.__ensure_section(self.config, name)`: append a fresh empty
section when no child with the given name exists.  The section list the
Python method returns is recovered as `get_sections_named` of the result. -/
def ensure_section (c : Section) (nm : String) : Section :=
  if (c.get_sections_named nm).isEmpty then c.add_section (.mk nm [] [])
  else c

/-- One step of the second loop of `__set_section_options` on the last target
section: an empty value deletes the attribute, a nonempty value
sets/overwrites it. -/
def apply_option (s : Section) (nv : String × String) : Section :=
  if nv.2 == "" then s.del_attributes_by_name nv.1
  else s.set_attribute nv.1 nv.2

/-- The second loop of `__set_section_options` (applied to the last target
section): iterate the sorted option items. -/
def apply_options (opts : List (String × String)) (s : Section) : Section :=
  (sortOpts opts).foldl apply_option s

/-- The first loop of `__set_section_options` (applied to every target section
but the last): delete every attribute whose name is a key of the options. -/
def strip_options (opts : List (String × String)) (s : Section) : Section :=
  opts.foldl (fun s nv => s.del_attributes_by_name nv.1) s

/-- Map over the children with the given name, applying `g` to the last one
and `f` to the others; children with a different name are unchanged. -/
def mapNamedLast (nm : String) (f g : Section → Section) :
    List Section → List Section
| [] => []
| c :: cs =>
    (if c.name == nm then
       if (cs.filter (fun x => x.name == nm)).isEmpty then g c else f c
     else c) :: mapNamedLast nm f g cs

/-- Map over the children with the given name; others unchanged. -/
def mapNamed (nm : String) (f : Section → Section) (l : List Section) :
    List Section :=
  l.map (fun c => if c.name == nm then f c else c)

/-- `ConfigFacade.__set_section_options(section_list, options)` where
`section_list` is the list of children of the root named `nm`: strip the
option names from every such child but the last, apply the sorted options to
the last.  (The source raises `IndexError` when the section list is empty and
the options are not; with root children the list is never empty at any call
site, because `__ensure_section` runs first.) -/
def set_section_options (nm : String) (opts : List (String × String))
    (c : Section) : Section :=
  .mk c.name c.attrs
    (mapNamedLast nm (strip_options opts) (apply_options opts) c.children)

mutual

/-- `ConfigFacade.__remove_empty_sections(parent)`: recursively prune every
descendant section that ends up with no attributes and no children; the
section this is applied to is itself never removed. -/
def Section.prune : Section → Section
| .mk n a cs => .mk n a (pruneChildren cs)

/-- Children after pruning: each child is pruned bottom-up and dropped when
empty. -/
def pruneChildren : List Section → List Section
| [] => []
| c :: cs =>
    if c.prune.empty then pruneChildren cs else c.prune :: pruneChildren cs

end

/-- List of all `auto_tie_breaker` attributes across the `quorum` children of
the root, in document order. -/
def atb_list (c : Section) : List (String × String) :=
  ((c.get_sections_named "quorum").map
    (fun q => q.get_attributes_named "auto_tie_breaker")).flatten

/-- The `auto_tie_breaker` flag computed at the start of `__update_two_node`:
the last occurrence wins and any value other than `"0"` is truthy; absent
means false. -/
def auto_tie_breaker_flag (c : Section) : Bool :=
  match (atb_list c).getLast? with
  | some a => a.2 != "0"
  | none => false

/-- Last-occurrence `algorithm` value of a `net` model section (the inner
read loop of `__update_two_node`). -/
def algOf (net : Section) : Option String :=
  match (net.get_attributes_named "algorithm").getLast? with
  | some a => some a.2
  | none => none

/-- The per-`net`-section algorithm fix of `__update_two_node`: `lms` with two
nodes becomes `2nodelms`, `2nodelms` without two nodes becomes `lms`, anything
else is untouched. -/
def fix_algorithm_net (twoN : Bool) (net : Section) : Section :=
  if algOf net == some "lms" && twoN then
    net.set_attribute "algorithm" "2nodelms"
  else if algOf net == some "2nodelms" && !twoN then
    net.set_attribute "algorithm" "lms"
  else net

/-- The second phase of `__update_two_node`: apply the algorithm fix to every
`net` child of every `device` child of every `quorum` child. -/
def fix_algorithms (twoN : Bool) (c : Section) : Section :=
  .mk c.name c.attrs
    (mapNamed "quorum"
      (fun q => .mk q.name q.attrs
        (mapNamed "device"
          (fun d => .mk d.name d.attrs
            (mapNamed "net" (fix_algorithm_net twoN) d.children))
          q.children))
      c.children)

/-- `ConfigFacade.__update_two_node`: compute the relevant status, then set
`two_node` to `"1"` on the last `quorum` section (stripping it from the
others) when there are exactly two nodes, `auto_tie_breaker` is not truthy and
no quorum device is configured — otherwise delete `two_node` from every
`quorum` section — and finally fix the `net` algorithm values. -/
def update_two_node (c : Section) : Section :=
  let hasQ := has_quorum_device c
  let twoN := (get_nodes c).length == 2
  let atb := auto_tie_breaker_flag c
  let c1 :=
    if twoN && !atb && !hasQ then
      set_section_options "quorum" [("two_node", "1")] (ensure_section c "quorum")
    else
      .mk c.name c.attrs
        (mapNamed "quorum" (fun q => q.del_attributes_by_name "two_node")
          c.children)
  fix_algorithms twoN c1

/-- `ConfigFacade.set_quorum_options(report_processor, options)`.  The report
processor is modelled as a boolean function on the submitted problem list:
`true` means it raises, which aborts the operation. -/
def set_quorum_options (rp : List ReportItem → Bool)
    (options : List (String × String)) (c : Section) :
    Except FacadeErr Section :=
  let problems := validate_quorum_options options
  if rp problems then .error (.processorRaised problems)
  else
    .ok (Section.prune (update_two_node
      (set_section_options "quorum" options (ensure_section c "quorum"))))

/-- The option map cleared across every `quorum` section by
`add_quorum_device` (all values empty, so all these names are deleted). -/
def add_clear_options : List (String × String) :=
  [("allow_downscale", ""), ("auto_tie_breaker", ""), ("last_man_standing", ""),
   ("last_man_standing_window", ""), ("two_node", "")]

/-- Deletion of every `device` child of every `quorum` child (the cleanup
loop of `add_quorum_device` and the whole mutation of
`remove_quorum_device`). -/
def delete_devices (c : Section) : Section :=
  .mk c.name c.attrs
    (mapNamed "quorum"
      (fun q => .mk q.name q.attrs
        (q.children.filter (fun d => d.name != "device")))
      c.children)

/-- The fresh `device` section built by `add_quorum_device`: generic options
applied to a new empty section, then the `model` attribute set, then the
model section (a new section named after the model holding the sorted model
options) appended as its only child. -/
def new_device_section (model : String) (model_options generic_options :
    List (String × String)) : Section :=
  ((apply_options generic_options (.mk "device" [] [])).set_attribute
      "model" model).add_section
    (apply_options model_options (.mk model [] []))

/-- The mutation part of `add_quorum_device`, after validation passed. -/
def add_quorum_device_apply (model : String)
    (model_options generic_options : List (String × String)) (c : Section) :
    Section :=
  let c1 := ensure_section c "quorum"
  let c2 := set_section_options "quorum" add_clear_options c1
  let c3 := delete_devices c2
  let c4 := .mk c3.name c3.attrs
    (mapNamedLast "quorum" id
      (fun q => q.add_section
        (new_device_section model model_options generic_options))
      c3.children)
  Section.prune (update_two_node c4)

/-- `ConfigFacade.add_quorum_device(report_processor, model, model_options,
generic_options)`. -/
def add_quorum_device (rp : List ReportItem → Bool) (model : String)
    (model_options generic_options : List (String × String)) (c : Section) :
    Except FacadeErr Section :=
  if has_quorum_device c then
    .error (.libraryError ⟨report_codes.QDEVICE_ALREADY_DEFINED, false, []⟩)
  else
    let problems := validate_quorum_device_model model
      ++ validate_quorum_device_model_options c (some model) model_options true
      ++ validate_quorum_device_generic_options generic_options
    if rp problems then .error (.processorRaised problems)
    else .ok (add_quorum_device_apply model model_options generic_options c)

/-- The current quorum device model: last `model` attribute occurrence in
document order across all `device` children of all `quorum` children (the
read loop of `update_quorum_device`). -/
def current_model (c : Section) : Option String :=
  (((c.get_sections_named "quorum").map
      (fun q => ((q.get_sections_named "device").map
        (fun d => d.get_attributes_named "model")).flatten)).flatten).getLast?
    |>.map (fun a => a.2)

/-- Does a `quorum` section have a `device` child? -/
def q_has_device (q : Section) : Bool :=
  q.children.any (fun d => d.name == "device")

/-- Application of the generic options to every `device` section (children of
`quorum` children), with last-section-wins semantics: strip the option names
from every device but the globally last one, apply the sorted options to the
last. -/
def set_device_options (go : List (String × String)) :
    List Section → List Section
| [] => []
| q :: rest =>
    (if q.name == "quorum" then
       if rest.any (fun x => x.name == "quorum" && q_has_device x) then
         .mk q.name q.attrs (mapNamed "device" (strip_options go) q.children)
       else
         .mk q.name q.attrs
           (mapNamedLast "device" (strip_options go) (apply_options go)
             q.children)
     else q) :: set_device_options go rest

/-- Does a `device` section have a child named after the model? -/
def d_has_model (m : Option String) (d : Section) : Bool :=
  match m with
  | some nm => d.children.any (fun s => s.name == nm)
  | none => false

/-- Does a `quorum` section contain a device with a model section? -/
def q_has_model (m : Option String) (q : Section) : Bool :=
  q.children.any (fun d => d.name == "device" && d_has_model m d)

/-- Map the model sections of one `device` section (children named after the
model); `isLast` tells whether this device holds the globally last model
section. -/
def map_model_in_device (m : Option String) (f g : Section → Section)
    (isLast : Bool) (d : Section) : Section :=
  match m with
  | some nm =>
      if isLast then .mk d.name d.attrs (mapNamedLast nm f g d.children)
      else .mk d.name d.attrs (mapNamed nm f d.children)
  | none => d

/-- Walk the device children of the quorum holding the globally last model
section: the last device with a model section gets the last-wins treatment. -/
def mapModelDevices (m : Option String) (f g : Section → Section) :
    List Section → List Section
| [] => []
| d :: rest =>
    (if d.name == "device" then
       if rest.any (fun x => x.name == "device" && d_has_model m x) then
         map_model_in_device m f g false d
       else
         map_model_in_device m f g true d
     else d) :: mapModelDevices m f g rest

/-- Map the model sections inside one `quorum` section, knowing whether the
globally last model section lives here. -/
def map_model_in_quorum (m : Option String) (f g : Section → Section)
    (isLast : Bool) (q : Section) : Section :=
  .mk q.name q.attrs
    (if isLast then
       mapModelDevices m f g q.children
     else
       mapNamed "device" (map_model_in_device m f g false) q.children)

/-- Application of the model options to every section named after the current
model (grandchildren through `quorum` → `device`), with last-section-wins
semantics. -/
def set_model_options (m : Option String) (mo : List (String × String)) :
    List Section → List Section
| [] => []
| q :: rest =>
    (if q.name == "quorum" then
       if rest.any (fun x => x.name == "quorum" && q_has_model m x) then
         map_model_in_quorum m (strip_options mo) (apply_options mo) false q
       else
         map_model_in_quorum m (strip_options mo) (apply_options mo)
           (q_has_model m q) q
     else q) :: set_model_options m mo rest

/-- Number of sections named after the current model (the length of the
`model_sections` list of `update_quorum_device`). -/
def model_sections_count (m : Option String) (c : Section) : Nat :=
  match m with
  | some nm =>
      (((c.get_sections_named "quorum").map
        (fun q => ((q.get_sections_named "device").map
          (fun d => d.get_sections_named nm)).flatten)).flatten).length
  | none => 0

/-- The mutation part of `update_quorum_device`, after validation passed. -/
def update_quorum_device_apply (m : Option String)
    (mo go : List (String × String)) (c : Section) : Section :=
  let c1 := Section.mk c.name c.attrs (set_device_options go c.children)
  let c2 := Section.mk c1.name c1.attrs (set_model_options m mo c1.children)
  Section.prune (update_two_node c2)

/-- `ConfigFacade.update_quorum_device(report_processor, model_options,
generic_options)`.  When no section named after the current model exists and
the model options are nonempty, the source hits `section_list[-1]` on an
empty list and raises `IndexError` (after the generic options were already
applied); this is modelled as the `indexError` outcome. -/
def update_quorum_device (rp : List ReportItem → Bool)
    (mo go : List (String × String)) (c : Section) :
    Except FacadeErr Section :=
  if !has_quorum_device c then
    .error (.libraryError ⟨report_codes.QDEVICE_NOT_DEFINED, false, []⟩)
  else
    let m := current_model c
    let problems := validate_quorum_device_model_options c m mo false
      ++ validate_quorum_device_generic_options go
    if rp problems then .error (.processorRaised problems)
    else if model_sections_count m c == 0 && !(sortOpts mo).isEmpty then
      .error .indexError
    else .ok (update_quorum_device_apply m mo go c)

/-- `ConfigFacade.remove_quorum_device()`. -/
def remove_quorum_device (c : Section) : Except FacadeErr Section :=
  if !has_quorum_device c then
    .error (.libraryError ⟨report_codes.QDEVICE_NOT_DEFINED, false, []⟩)
  else
    .ok (Section.prune (update_two_node (delete_devices c)))

/-- The `quorum` children of the root. -/
def quorum_children (c : Section) : List Section :=
  c.get_sections_named "quorum"

/-- The `two_node` attributes of a section. -/
def two_node_attrs (s : Section) : List (String × String) :=
  s.get_attributes_named "two_node"

/-- Number of nodes of the configuration. -/
def node_count (c : Section) : Nat :=
  (get_nodes c).length

/-- The condition of `__update_two_node` under which `two_node` is set: two
nodes, `auto_tie_breaker` not truthy, no quorum device. -/
def two_node_cond (c : Section) : Prop :=
  node_count c = 2 ∧ auto_tie_breaker_flag c = false
    ∧ has_quorum_device c = false

instance (c : Section) : Decidable (two_node_cond c) := by
  unfold two_node_cond; infer_instance

/-- The `two_node` attribute is `"1"` on the last `quorum` section and absent
from every other `quorum` section. -/
def two_node_set_prop (c : Section) : Prop :=
  ∃ pre q, quorum_children c = pre ++ [q]
    ∧ two_node_attrs q = [("two_node", "1")]
    ∧ ∀ x ∈ pre, two_node_attrs x = []

/-- No `quorum` section carries a `two_node` attribute. -/
def two_node_absent_prop (c : Section) : Prop :=
  ∀ q ∈ quorum_children c, two_node_attrs q = []

/-- The claimed `two_node` invariant: the attribute is set on the last
`quorum` section iff the two-node condition holds, otherwise it is removed
from every `quorum` section. -/
def two_node_invariant (c : Section) : Prop :=
  (two_node_cond c → two_node_set_prop c)
    ∧ (¬ two_node_cond c → two_node_absent_prop c)

/-- Every `node` section (child of a `nodelist` child of the root) carries at
least one attribute, so node sections are never pruned away. -/
def nodes_have_attrs (c : Section) : Prop :=
  ∀ nl ∈ c.children, nl.name = "nodelist" →
    ∀ nd ∈ nl.children, nd.name = "node" → nd.attrs ≠ []

instance (c : Section) : Decidable (nodes_have_attrs c) := by
  unfold nodes_have_attrs; infer_instance

/-- The spec's wording of `has_quorum_device`: some `quorum` section contains
a `device` child whose `model` attribute has a non-empty value. -/
def spec_has_quorum_device_nonempty (c : Section) : Bool :=
  (c.get_sections_named "quorum").any fun q =>
    (q.get_sections_named "device").any fun d =>
      (d.get_attributes_named "model").any fun a => a.2 != ""

/-- Membership in a stable insertion is membership in the inserted element or
the list. -/
theorem mem_insOpt (x a : String × String) (l : List (String × String)) :
    x ∈ insOpt a l ↔ x = a ∨ x ∈ l := by
  induction l with
  | nil => simp [insOpt]
  | cons b t ih =>
      by_cases h : pairLe a b = true
      · simp [insOpt, h]
      · simp only [insOpt, h]
        simp [ih]
        tauto

/-- Sorting the option items does not change membership. -/
theorem mem_sortOpts (x : String × String) (l : List (String × String)) :
    x ∈ sortOpts l ↔ x ∈ l := by
  induction l with
  | nil => simp [sortOpts]
  | cons a t ih => simp [sortOpts, mem_insOpt, ih]

/-- A concrete configuration whose only device has a `model` attribute with an
empty value. -/
def emptyModelCfg : Section :=
  .mk "" [] [.mk "quorum" [] [.mk "device" [("model", "")] []]]

/-- Claim C3, counterexample: `has_quorum_device` is true on a configuration
whose only `model` attribute has the empty value, while no quorum section
contains a device with a non-empty `model` value, refuting the claimed
equivalence. -/
theorem claim_C3_counterexample :
    has_quorum_device emptyModelCfg = true
      ∧ spec_has_quorum_device_nonempty emptyModelCfg = false :=
  ⟨rfl, rfl⟩

/-- Claim C3 (amended): `has_quorum_device()` returns true if and only if some
quorum section contains a device child section with at least one `model`
attribute, regardless of its value; it is a total pure function of the tree
(it never fails and never mutates). -/
theorem claim_C3_has_quorum_device_iff (c : Section) :
    has_quorum_device c = true ↔
      ∃ q ∈ c.get_sections_named "quorum",
        ∃ d ∈ q.get_sections_named "device",
          d.get_attributes_named "model" ≠ [] := by
  simp [has_quorum_device, List.any_eq_true, List.isEmpty_eq_false]

/-- The inner fold of `get_quorum_device_settings` does nothing when no
quorum section has a device child. -/
theorem qd_fold_no_device (l : List Section) (st : QdState)
    (h : ∀ q ∈ l, q.get_sections_named "device" = []) :
    l.foldl (fun st q => (q.get_sections_named "device").foldl qdDeviceStep st)
      st = st := by
  induction l generalizing st with
  | nil => rfl
  | cons q t ih =>
      have hq : q.get_sections_named "device" = [] := h q (by simp)
      simp only [List.foldl_cons, hq, List.foldl_nil]
      exact ih st (fun x hx => h x (by simp [hx]))

/-- Claim C9: when no `quorum` section has a `device` child,
`get_quorum_device_settings` returns no model, an empty model-options map and
an empty generic-options map (and, being a pure total function of the tree, it
neither fails nor mutates). -/
theorem claim_C9_no_device_settings (c : Section)
    (h : ∀ q ∈ c.get_sections_named "quorum",
      q.get_sections_named "device" = []) :
    get_quorum_device_settings c = (none, [], []) := by
  unfold get_quorum_device_settings
  rw [qd_fold_no_device _ _ h]

/-- Claim C9, witness. -/
theorem claim_C9_witness :
    get_quorum_device_settings (.mk "" [] [.mk "quorum" [("wait_for_all", "1")] []])
      = (none, [], []) :=
  claim_C9_no_device_settings _ (by
    intro q hq
    simp [Section.get_sections_named] at hq
    subst hq
    rfl)

/-- Claim C2: in each of the three write operations taking a report
processor, if the processor raises on the collected validation problems then
the operation propagates that failure; the problem list submitted is the full
validation of all supplied inputs, and — the operations being functions of
the original tree that return the failure without producing a tree — no
mutation has taken place.  For `add_quorum_device` the quorum-device
precondition is assumed to hold, since otherwise the precondition error fires
before the processor is consulted (claim C7). -/
theorem claim_C2_validate_before_mutate (c : Section)
    (rp : List ReportItem → Bool) :
    (∀ opts, rp (validate_quorum_options opts) = true →
        set_quorum_options rp opts c
          = .error (.processorRaised (validate_quorum_options opts)))
    ∧ (∀ model mo go, has_quorum_device c = false →
        rp (validate_quorum_device_model model
            ++ validate_quorum_device_model_options c (some model) mo true
            ++ validate_quorum_device_generic_options go) = true →
        add_quorum_device rp model mo go c
          = .error (.processorRaised (validate_quorum_device_model model
              ++ validate_quorum_device_model_options c (some model) mo true
              ++ validate_quorum_device_generic_options go)))
    ∧ (∀ mo go, has_quorum_device c = true →
        rp (validate_quorum_device_model_options c (current_model c) mo false
            ++ validate_quorum_device_generic_options go) = true →
        update_quorum_device rp mo go c
          = .error (.processorRaised
              (validate_quorum_device_model_options c (current_model c) mo false
                ++ validate_quorum_device_generic_options go))) := by
  refine ⟨fun opts h => ?_, fun model mo go hq h => ?_, fun mo go hq h => ?_⟩
  · simp [set_quorum_options, h]
  · simp only [List.append_assoc] at h ⊢
    simp [add_quorum_device, hq, h]
  · simp [update_quorum_device, hq, h]

/-- Claim C2, witness: a processor that always raises aborts each operation
with the collected problems. -/
theorem claim_C2_witness :
    set_quorum_options (fun _ => true) [] (.mk "" [] [])
        = .error (.processorRaised (validate_quorum_options []))
      ∧ add_quorum_device (fun _ => true) "net" [] [] (.mk "" [] [])
        = .error (.processorRaised (validate_quorum_device_model "net"
            ++ validate_quorum_device_model_options (.mk "" [] [])
                (some "net") [] true
            ++ validate_quorum_device_generic_options []))
      ∧ update_quorum_device (fun _ => true) [] [] emptyModelCfg
        = .error (.processorRaised
            (validate_quorum_device_model_options emptyModelCfg
              (current_model emptyModelCfg) [] false
              ++ validate_quorum_device_generic_options [])) :=
  ⟨(claim_C2_validate_before_mutate (.mk "" [] []) (fun _ => true)).1 [] rfl,
   (claim_C2_validate_before_mutate (.mk "" [] []) (fun _ => true)).2.1
     "net" [] [] rfl rfl,
   (claim_C2_validate_before_mutate emptyModelCfg (fun _ => true)).2.2
     [] [] rfl rfl⟩

/-- Claim C7: `add_quorum_device` fails with the hard, non-forceable
`QDEVICE_ALREADY_DEFINED` library error whenever a quorum device is present,
and `update_quorum_device` and `remove_quorum_device` fail with the hard,
non-forceable `QDEVICE_NOT_DEFINED` library error whenever none is present —
in each case for every report processor (so before the processor is ever
consulted) and, the operations returning the failure without producing a
tree, without modifying the tree. -/
theorem claim_C7_precondition_errors (c : Section) :
    (has_quorum_device c = true →
      ∀ rp model mo go, add_quorum_device rp model mo go c
        = .error (.libraryError ⟨report_codes.QDEVICE_ALREADY_DEFINED, false, []⟩))
    ∧ (has_quorum_device c = false →
        (∀ rp mo go, update_quorum_device rp mo go c
          = .error (.libraryError ⟨report_codes.QDEVICE_NOT_DEFINED, false, []⟩))
        ∧ remove_quorum_device c
          = .error (.libraryError ⟨report_codes.QDEVICE_NOT_DEFINED, false, []⟩)) := by
  refine ⟨fun hq rp model mo go => ?_, fun hq => ⟨fun rp mo go => ?_, ?_⟩⟩
  · simp [add_quorum_device, hq]
  · simp [update_quorum_device, hq]
  · simp [remove_quorum_device, hq]

/-- Claim C7, witness. -/
theorem claim_C7_witness :
    has_quorum_device emptyModelCfg = true
      ∧ add_quorum_device (fun _ => false) "net" [] [] emptyModelCfg
        = .error (.libraryError ⟨report_codes.QDEVICE_ALREADY_DEFINED, false, []⟩)
      ∧ has_quorum_device (.mk "" [] []) = false
      ∧ update_quorum_device (fun _ => false) [] [] (.mk "" [] [])
        = .error (.libraryError ⟨report_codes.QDEVICE_NOT_DEFINED, false, []⟩)
      ∧ remove_quorum_device (.mk "" [] [])
        = .error (.libraryError ⟨report_codes.QDEVICE_NOT_DEFINED, false, []⟩) :=
  ⟨rfl,
   (claim_C7_precondition_errors emptyModelCfg).1 rfl (fun _ => false) "net" [] [],
   rfl,
   ((claim_C7_precondition_errors (.mk "" [] [])).2 rfl).1 (fun _ => false) [] [],
   ((claim_C7_precondition_errors (.mk "" [] [])).2 rfl).2⟩

/-- A configuration with a quorum device of model `foo` and no section named
`foo`. -/
def fooModelCfg : Section :=
  .mk "" [] [.mk "quorum" [] [.mk "device" [("model", "foo")] []]]

/-- Claim C10: with the current model `foo` (≠ `net`), model-option validation
returns no problems for an arbitrary option map, as claimed; but instead of
writing the options to the (zero) sections named `foo`, the operation hits
`section_list[-1]` on the empty model-section list and raises `IndexError`. -/
theorem claim_C10_index_error :
    current_model fooModelCfg = some "foo"
      ∧ validate_quorum_device_model_options fooModelCfg
          (current_model fooModelCfg) [("a", "b")] false = []
      ∧ update_quorum_device (fun _ => false) [("a", "b")] [] fooModelCfg
        = .error .indexError :=
  ⟨rfl, rfl, rfl⟩

/-- Claim C4, counterexample: on a configuration with no nodes, a
`tie_breaker` value that is no node id and neither `lowest` nor `highest`
produces exactly one validation problem — and that problem carries
`forceable = true`, so it can be bypassed by a force policy, refuting the
claimed non-forceability. -/
theorem claim_C4_counterexample :
    validate_quorum_device_model_net_options (.mk "" [] [])
        [("tie_breaker", "node99")] false
      = [net_bad_value_item "tie_breaker" "node99"
          ["lowest", "highest", "valid node id"]
          (joinOr ["lowest", "highest", "valid node id"])]
      ∧ (net_bad_value_item "tie_breaker" "node99"
          ["lowest", "highest", "valid node id"]
          (joinOr ["lowest", "highest", "valid node id"])).forceable = true :=
  ⟨rfl, rfl⟩

/-- Claim C4 (amended): when validating net model options, a non-empty
`tie_breaker` value that is neither `lowest`, `highest`, nor the id of a node
currently in the node list produces an `INVALID_OPTION_VALUE` validation
problem for `tie_breaker` — and that problem is forceable (it can be bypassed
by a force policy); an empty value is the deletion sentinel and produces no
problem. -/
theorem claim_C4_tie_breaker_forceable (c : Section)
    (mo : List (String × String)) (nr : Bool) (v : String)
    (hmem : ("tie_breaker", v) ∈ mo) (hne : v ≠ "")
    (hlow : v ≠ "lowest") (hhigh : v ≠ "highest")
    (hid : ¬ ((get_nodes c).map NodeAddresses.id).contains (some v) = true) :
    ∃ item ∈ validate_quorum_device_model_net_options c mo nr,
      item.code = report_codes.INVALID_OPTION_VALUE
        ∧ item.forceable = true
        ∧ ("option_name", InfoVal.str "tie_breaker") ∈ item.info
        ∧ ("option_value", InfoVal.str v) ∈ item.info := by
  refine ⟨net_bad_value_item "tie_breaker" v
      ["lowest", "highest", "valid node id"]
      (joinOr ["lowest", "highest", "valid node id"]), ?_, rfl, rfl,
    by simp [net_bad_value_item], by simp [net_bad_value_item]⟩
  unfold validate_quorum_device_model_net_options
  apply List.mem_append_right
  have hs : ("tie_breaker", v) ∈ sortOpts mo := (mem_sortOpts _ _).2 hmem
  refine List.mem_flatten.2
    ⟨validate_net_option_item ((get_nodes c).map NodeAddresses.id)
        ("tie_breaker", v),
      List.mem_map_of_mem _ hs, ?_⟩
  have hv : (v == "") = false := beq_eq_false_iff_ne.2 hne
  have hl : (v == "lowest") = false := beq_eq_false_iff_ne.2 hlow
  have hh : (v == "highest") = false := beq_eq_false_iff_ne.2 hhigh
  have hall : ∀ x ∈ get_nodes c, ¬ x.id = some v := by simpa using hid
  simp [validate_net_option_item, hv, hl, hh, hall]
  rw [if_pos (show ("tie_breaker" : String) ∈ net_allowed_options by
    simp [net_allowed_options]), if_pos hall]
  simp

/-- Claim C4, witness. -/
theorem claim_C4_witness :
    ("tie_breaker", "node99") ∈ [("tie_breaker", "node99")]
      ∧ ∃ item ∈ validate_quorum_device_model_net_options (.mk "" [] [])
          [("tie_breaker", "node99")] false,
        item.code = report_codes.INVALID_OPTION_VALUE
          ∧ item.forceable = true
          ∧ ("option_name", InfoVal.str "tie_breaker") ∈ item.info
          ∧ ("option_value", InfoVal.str "node99") ∈ item.info :=
  ⟨by decide,
   claim_C4_tie_breaker_forceable (.mk "" [] []) [("tie_breaker", "node99")]
     false "node99" (by decide) (by decide) (by decide) (by decide)
     (by decide)⟩

/-- Induction over the section tree: to prove a property of every section it
suffices to prove it for a section assuming it for all children. -/
theorem Section.induct (P : Section → Prop)
    (h : ∀ n a cs, (∀ c ∈ cs, P c) → P (.mk n a cs)) (s : Section) : P s :=
  @Section.rec P (fun cs => ∀ c ∈ cs, P c)
    (fun n a cs ih => h n a cs ih)
    (fun c hc => absurd hc (List.not_mem_nil c))
    (fun hd tl ph pt c hc => by
      rcases List.mem_cons.1 hc with h1 | h2
      · exact h1 ▸ ph
      · exact pt c h2)
    s

@[simp] theorem prune_mk (n : String) (a : List (String × String))
    (cs : List Section) :
    (Section.mk n a cs).prune = .mk n a (pruneChildren cs) := rfl

@[simp] theorem prune_name (s : Section) : s.prune.name = s.name := by
  cases s; rfl

@[simp] theorem prune_attrs (s : Section) : s.prune.attrs = s.attrs := by
  cases s; rfl

theorem prune_children (s : Section) :
    s.prune.children = pruneChildren s.children := by
  cases s; rfl

/-- Pruned children are the pruned versions of the children with the empty
ones dropped. -/
theorem pruneChildren_eq (l : List Section) :
    pruneChildren l = (l.map Section.prune).filter (fun s => !s.empty) := by
  induction l with
  | nil => rfl
  | cons c t ih =>
      by_cases h : c.prune.empty
      · simp [pruneChildren, h, ih]
      · simp [pruneChildren, h, ih]

/-- Pruning distributes over list append. -/
theorem pruneChildren_append (l₁ l₂ : List Section) :
    pruneChildren (l₁ ++ l₂) = pruneChildren l₁ ++ pruneChildren l₂ := by
  simp [pruneChildren_eq]

/-- Pruning is idempotent. -/
theorem prune_idem (s : Section) : s.prune.prune = s.prune := by
  induction s using Section.induct with
  | h n a cs ih =>
      simp only [prune_mk, Section.mk.injEq, true_and]
      induction cs with
      | nil => rfl
      | cons c t iht =>
          have hc : c.prune.prune = c.prune := ih c (by simp)
          have iht' := iht (fun x hx => ih x (by simp [hx]))
          by_cases h : c.prune.empty
          · simp [pruneChildren, h, iht']
          · simp only [pruneChildren, h, if_false]
            simp only [pruneChildren, hc, h, if_false, iht']

/-- Selecting the attributes of a name after deleting that name gives
nothing. -/
theorem filter_key_del_self (n : String) (a : List (String × String)) :
    ((a.filter (fun b => b.1 != n)).filter (fun b => b.1 == n)) = [] := by
  induction a with
  | nil => rfl
  | cons x t ih =>
      by_cases h : x.1 = n
      · have h1 : (x.1 != n) = false := by simp [h]
        simp only [List.filter_cons, h1, if_false]
        exact ih
      · have h1 : (x.1 != n) = true := by simp [h]
        have h2 : (x.1 == n) = false := by simp [h]
        simp only [List.filter_cons, h1, if_true, h2, if_false]
        exact ih

/-- Deleting a different name does not change the attributes of a name. -/
theorem filter_key_del_other (n n' : String) (h : n ≠ n')
    (a : List (String × String)) :
    ((a.filter (fun b => b.1 != n')).filter (fun b => b.1 == n))
      = a.filter (fun b => b.1 == n) := by
  induction a with
  | nil => rfl
  | cons x t ih =>
      by_cases hx : x.1 = n'
      · have h1 : (x.1 != n') = false := by simp [hx]
        have h2 : (x.1 == n) = false := by simp [hx, Ne.symm h]
        simp only [List.filter_cons, h1, if_false, h2]
        exact ih
      · have h1 : (x.1 != n') = true := by simp [hx]
        by_cases hy : x.1 = n
        · have h2 : (x.1 == n) = true := by simp [hy]
          simp only [List.filter_cons, h1, if_true, h2]
          rw [ih]
        · have h2 : (x.1 == n) = false := by simp [hy]
          simp only [List.filter_cons, h1, if_true, h2, if_false]
          exact ih

/-- After `setAttrList` the attributes of the set name are exactly the new
pair. -/
theorem filter_key_setAttrList_self (n v : String)
    (a : List (String × String)) :
    (setAttrList n v a).filter (fun b => b.1 == n) = [(n, v)] := by
  induction a with
  | nil => simp [setAttrList]
  | cons x t ih =>
      by_cases h : x.1 = n
      · have h1 : (x.1 == n) = true := by simp [h]
        simp only [setAttrList, h1, if_true, List.filter_cons]
        simp [filter_key_del_self]
      · have h1 : (x.1 == n) = false := by simp [h]
        simp only [setAttrList, h1, Bool.false_eq_true, if_false,
          List.filter_cons]
        exact ih

/-- Setting a different name does not change the attributes of a name. -/
theorem filter_key_setAttrList_other (n n' v : String) (h : n ≠ n')
    (a : List (String × String)) :
    (setAttrList n' v a).filter (fun b => b.1 == n)
      = a.filter (fun b => b.1 == n) := by
  induction a with
  | nil => simp [setAttrList, Ne.symm h]
  | cons x t ih =>
      by_cases hx : x.1 = n'
      · have h1 : (x.1 == n') = true := by simp [hx]
        have h2 : ((n', v).1 == n) = false := by simp [Ne.symm h]
        have h3 : (x.1 == n) = false := by simp [hx, Ne.symm h]
        simp only [setAttrList, h1, if_true, List.filter_cons, h2, if_false, h3]
        exact filter_key_del_other n n' h t
      · have h1 : (x.1 == n') = false := by simp [hx]
        simp only [setAttrList, h1, Bool.false_eq_true, if_false,
          List.filter_cons]
        by_cases hy : x.1 = n
        · have h2 : (x.1 == n) = true := by simp [hy]
          simp only [h2, if_true]
          rw [ih]
        · have h2 : (x.1 == n) = false := by simp [hy]
          simp only [h2, Bool.false_eq_true, if_false]
          exact ih

/-- `setAttrList` never produces the empty list. -/
theorem setAttrList_ne_nil (n v : String) (a : List (String × String)) :
    setAttrList n v a ≠ [] := by
  cases a with
  | nil => simp [setAttrList]
  | cons x t =>
      by_cases h : x.1 == n <;> simp [setAttrList, h]

/-- When the attributes of a name are already exactly the pair being set,
`setAttrList` is the identity. -/
theorem setAttrList_eq_self (n v : String) (a : List (String × String))
    (h : a.filter (fun b => b.1 == n) = [(n, v)]) :
    setAttrList n v a = a := by
  induction a with
  | nil => simp at h
  | cons x t ih =>
      by_cases hx : x.1 = n
      · have h1 : (x.1 == n) = true := by simp [hx]
        simp only [List.filter_cons, h1, if_true] at h
        have hx' : x = (n, v) := List.head_eq_of_cons_eq h
        have ht : t.filter (fun b => b.1 == n) = [] :=
          List.tail_eq_of_cons_eq h
        have ht' : t.filter (fun b => b.1 != n) = t := by
          rw [List.filter_eq_self]
          intro b hb
          by_cases hbn : b.1 = n
          · have : b ∈ t.filter (fun b => b.1 == n) :=
              List.mem_filter.2 ⟨hb, by simp [hbn]⟩
            rw [ht] at this
            exact absurd this (List.not_mem_nil b)
          · simp [hbn]
        simp [setAttrList, h1, hx', ht']
      · have h1 : (x.1 == n) = false := by simp [hx]
        simp only [List.filter_cons, h1, if_false] at h
        simp [setAttrList, h1, ih h]

/-- When a name is absent, deleting it is the identity. -/
theorem filter_del_eq_self (n : String) (a : List (String × String))
    (h : a.filter (fun b => b.1 == n) = []) :
    a.filter (fun b => b.1 != n) = a := by
  rw [List.filter_eq_self]
  intro b hb
  by_cases hbn : b.1 = n
  · have : b ∈ a.filter (fun b => b.1 == n) :=
      List.mem_filter.2 ⟨hb, by simp [hbn]⟩
    rw [h] at this
    exact absurd this (List.not_mem_nil b)
  · simp [hbn]

/-- The attribute-list form of `apply_options` (the second loop of
`__set_section_options`). -/
def applyOptList (l : List (String × String)) (a : List (String × String)) :
    List (String × String) :=
  l.foldl
    (fun a nv =>
      if nv.2 == "" then a.filter (fun b => b.1 != nv.1)
      else setAttrList nv.1 nv.2 a)
    a

/-- The attribute-list form of `strip_options` (the first loop of
`__set_section_options`). -/
def stripOptList (l : List (String × String)) (a : List (String × String)) :
    List (String × String) :=
  l.foldl (fun a nv => a.filter (fun b => b.1 != nv.1)) a

@[simp] theorem applyOptList_nil (a : List (String × String)) :
    applyOptList [] a = a := rfl

theorem applyOptList_cons (nv : String × String) (t : List (String × String))
    (a : List (String × String)) :
    applyOptList (nv :: t) a
      = applyOptList t
          (if nv.2 == "" then a.filter (fun b => b.1 != nv.1)
           else setAttrList nv.1 nv.2 a) := rfl

@[simp] theorem stripOptList_nil (a : List (String × String)) :
    stripOptList [] a = a := rfl

theorem stripOptList_cons (nv : String × String) (t : List (String × String))
    (a : List (String × String)) :
    stripOptList (nv :: t) a
      = stripOptList t (a.filter (fun b => b.1 != nv.1)) := rfl

/-- One application step only rewrites the attribute list. -/
theorem apply_option_eq (s : Section) (nv : String × String) :
    apply_option s nv
      = .mk s.name
          (if nv.2 == "" then s.attrs.filter (fun b => b.1 != nv.1)
           else setAttrList nv.1 nv.2 s.attrs)
          s.children := by
  unfold apply_option
  by_cases h : nv.2 == ""
  · rw [if_pos h, if_pos h]; rfl
  · rw [if_neg h, if_neg h]; rfl

/-- Folding `apply_option` only rewrites the attribute list. -/
theorem foldl_apply_option_eq (l : List (String × String)) (s : Section) :
    l.foldl apply_option s = .mk s.name (applyOptList l s.attrs) s.children := by
  induction l generalizing s with
  | nil => cases s <;> rfl
  | cons nv t ih =>
      rw [List.foldl_cons, apply_option_eq, ih, applyOptList_cons]
      rfl

/-- `apply_options` only rewrites the attribute list. -/
theorem apply_options_eq (o : List (String × String)) (s : Section) :
    apply_options o s
      = .mk s.name (applyOptList (sortOpts o) s.attrs) s.children :=
  foldl_apply_option_eq (sortOpts o) s

/-- `strip_options` only rewrites the attribute list. -/
theorem strip_options_eq (o : List (String × String)) (s : Section) :
    strip_options o s
      = .mk s.name (stripOptList o s.attrs) s.children := by
  unfold strip_options
  induction o generalizing s with
  | nil => cases s <;> rfl
  | cons nv t ih =>
      rw [List.foldl_cons, stripOptList_cons]
      rw [show (Section.del_attributes_by_name s nv.1)
            = .mk s.name (s.attrs.filter (fun b => b.1 != nv.1)) s.children
          from rfl]
      rw [ih]
      rfl

/-- A strip fold preserves the absence of a name. -/
theorem filter_key_stripOptList_of_nil (n : String)
    (l : List (String × String)) (a : List (String × String))
    (h : a.filter (fun b => b.1 == n) = []) :
    (stripOptList l a).filter (fun b => b.1 == n) = [] := by
  induction l generalizing a with
  | nil => exact h
  | cons nv t ih =>
      rw [stripOptList_cons]
      apply ih
      by_cases hn : n = nv.1
      · rw [← hn]; exact filter_key_del_self n a
      · rw [filter_key_del_other n nv.1 hn]; exact h

/-- After stripping, every stripped name is absent. -/
theorem filter_key_stripOptList_mem (n : String)
    (l : List (String × String)) (a : List (String × String))
    (h : ∃ nv ∈ l, nv.1 = n) :
    (stripOptList l a).filter (fun b => b.1 == n) = [] := by
  induction l generalizing a with
  | nil => simp at h
  | cons nv t ih =>
      rw [stripOptList_cons]
      rcases h with ⟨x, hx, hxn⟩
      rcases List.mem_cons.1 hx with h1 | h2
      · subst h1
        apply filter_key_stripOptList_of_nil
        rw [← hxn]
        exact filter_key_del_self x.1 a
      · exact ih _ ⟨x, h2, hxn⟩

/-- Stripping names different from `n` leaves the attributes of `n`
unchanged. -/
theorem filter_key_stripOptList_not_mem (n : String)
    (l : List (String × String)) (a : List (String × String))
    (h : ∀ nv ∈ l, nv.1 ≠ n) :
    (stripOptList l a).filter (fun b => b.1 == n)
      = a.filter (fun b => b.1 == n) := by
  induction l generalizing a with
  | nil => rfl
  | cons nv t ih =>
      rw [stripOptList_cons, ih _ (fun x hx => h x (by simp [hx]))]
      exact filter_key_del_other n nv.1 (fun he => h nv (by simp) he.symm) a

/-- Applying options whose keys all differ from `n` leaves the attributes of
`n` unchanged. -/
theorem filter_key_applyOptList_not_mem (n : String)
    (l : List (String × String)) (a : List (String × String))
    (h : ∀ nv ∈ l, nv.1 ≠ n) :
    (applyOptList l a).filter (fun b => b.1 == n)
      = a.filter (fun b => b.1 == n) := by
  induction l generalizing a with
  | nil => rfl
  | cons nv t ih =>
      rw [applyOptList_cons, ih _ (fun x hx => h x (by simp [hx]))]
      by_cases hv : nv.2 == ""
      · rw [if_pos hv]
        exact filter_key_del_other n nv.1 (fun he => h nv (by simp) he.symm) a
      · rw [if_neg hv]
        exact filter_key_setAttrList_other n nv.1 nv.2
          (fun he => h nv (by simp) he.symm) a

/-- After applying options with distinct keys, a key set to a nonempty value
has exactly that pair as its attributes. -/
theorem filter_key_applyOptList_set (n v : String)
    (l : List (String × String)) (a : List (String × String))
    (hnd : (l.map Prod.fst).Nodup) (hmem : (n, v) ∈ l) (hv : v ≠ "") :
    (applyOptList l a).filter (fun b => b.1 == n) = [(n, v)] := by
  induction l generalizing a with
  | nil => simp at hmem
  | cons nv t ih =>
      rcases List.mem_cons.1 hmem with h1 | h2
      · subst h1
        rw [applyOptList_cons, if_neg (by simpa using hv)]
        have ht : ∀ x ∈ t, x.1 ≠ n := by
          intro x hx he
          have hm : x.1 ∈ t.map Prod.fst := List.mem_map_of_mem Prod.fst hx
          rw [he] at hm
          exact (List.nodup_cons.1 hnd).1 hm
        rw [filter_key_applyOptList_not_mem n t _ ht]
        exact filter_key_setAttrList_self n v a
      · have hne : nv.1 ≠ n := by
          intro he
          have hm : (n, v).1 ∈ t.map Prod.fst :=
            List.mem_map_of_mem Prod.fst h2
          rw [← he] at hm
          exact (List.nodup_cons.1 hnd).1 hm
        rw [applyOptList_cons]
        exact ih _ (List.nodup_cons.1 hnd).2 h2

/-- After applying options with distinct keys, a key set to the empty value
is absent. -/
theorem filter_key_applyOptList_del (n : String)
    (l : List (String × String)) (a : List (String × String))
    (hnd : (l.map Prod.fst).Nodup) (hmem : (n, "") ∈ l) :
    (applyOptList l a).filter (fun b => b.1 == n) = [] := by
  induction l generalizing a with
  | nil => simp at hmem
  | cons nv t ih =>
      rcases List.mem_cons.1 hmem with h1 | h2
      · subst h1
        rw [applyOptList_cons, if_pos (by simp)]
        have ht : ∀ x ∈ t, x.1 ≠ n := by
          intro x hx he
          have hm : x.1 ∈ t.map Prod.fst := List.mem_map_of_mem Prod.fst hx
          rw [he] at hm
          exact (List.nodup_cons.1 hnd).1 hm
        rw [filter_key_applyOptList_not_mem n t _ ht]
        exact filter_key_del_self n a
      · rw [applyOptList_cons]
        exact ih _ (List.nodup_cons.1 hnd).2 h2

/-- Inserting into the sorted list permutes with consing. -/
theorem insOpt_perm (a : String × String) (l : List (String × String)) :
    List.Perm (insOpt a l) (a :: l) := by
  induction l with
  | nil => simp [insOpt]
  | cons b t ih =>
      by_cases h : pairLe a b
      · simp [insOpt, h]
      · simp only [insOpt, h, Bool.false_eq_true, if_false]
        exact (ih.cons b).trans (List.Perm.swap a b t)

/-- Sorting the option items is a permutation. -/
theorem sortOpts_perm (l : List (String × String)) :
    List.Perm (sortOpts l) l := by
  induction l with
  | nil => simp [sortOpts]
  | cons a t ih => exact (insOpt_perm a (sortOpts t)).trans (ih.cons a)

/-- Distinct keys survive sorting. -/
theorem sortOpts_nodup_keys (l : List (String × String))
    (h : (l.map Prod.fst).Nodup) : ((sortOpts l).map Prod.fst).Nodup :=
  (((sortOpts_perm l).map Prod.fst).nodup_iff).2 h

/-- `mapNamed` over names other than the filter name changes nothing. -/
theorem filter_name_mapNamed_ne (nm nm' : String) (f : Section → Section)
    (l : List Section) (hf : ∀ s, (f s).name = s.name) (h : nm' ≠ nm) :
    (mapNamed nm f l).filter (fun c => c.name == nm')
      = l.filter (fun c => c.name == nm') := by
  induction l with
  | nil => rfl
  | cons c t ih =>
      by_cases hc : c.name = nm
      · have h1 : (c.name == nm) = true := by simp [hc]
        have h2 : ((f c).name == nm') = false := by simp [hf, hc, Ne.symm h]
        have h3 : (c.name == nm') = false := by simp [hc, Ne.symm h]
        simp only [mapNamed, List.map_cons, h1, if_true, List.filter_cons, h2,
          Bool.false_eq_true, if_false, h3]
        exact ih
      · have h1 : (c.name == nm) = false := by simp [hc]
        simp only [mapNamed, List.map_cons, h1, Bool.false_eq_true, if_false,
          List.filter_cons]
        by_cases hc' : c.name = nm'
        · have h2 : (c.name == nm') = true := by simp [hc']
          simp only [h2, if_true]
          rw [show mapNamed nm f t = List.map (fun c => if c.name == nm then f c else c) t from rfl] at ih
          rw [ih]
        · have h2 : (c.name == nm') = false := by simp [hc']
          simp only [h2, Bool.false_eq_true, if_false]
          exact ih

/-- `mapNamed` with a pointwise-identity function is the identity. -/
theorem mapNamed_id (nm : String) (f : Section → Section) (l : List Section)
    (h : ∀ s ∈ l, s.name = nm → f s = s) : mapNamed nm f l = l := by
  induction l with
  | nil => rfl
  | cons c t ih =>
      have ih' := ih (fun s hs => h s (by simp [hs]))
      have ih2 : List.map (fun c => if c.name == nm then f c else c) t = t := ih'
      by_cases hc : c.name = nm
      · have h1 : (c.name == nm) = true := by simp [hc]
        simp only [mapNamed, List.map_cons, h1, if_true]
        rw [h c (by simp) hc, ih2]
      · have h1 : (c.name == nm) = false := by simp [hc]
        simp only [mapNamed, List.map_cons, h1, Bool.false_eq_true, if_false]
        rw [ih2]

/-- The filtered matches of `mapNamed` are the mapped filtered matches. -/
theorem filter_name_mapNamed_self (nm : String) (f : Section → Section)
    (l : List Section) (hf : ∀ s, (f s).name = s.name) :
    (mapNamed nm f l).filter (fun c => c.name == nm)
      = (l.filter (fun c => c.name == nm)).map f := by
  induction l with
  | nil => rfl
  | cons c t ih =>
      by_cases hc : c.name = nm
      · have h1 : (c.name == nm) = true := by simp [hc]
        have h2 : ((f c).name == nm) = true := by simp [hf, hc]
        have ih2 : ((List.map (fun c => if c.name == nm then f c else c) t).filter
            (fun c => c.name == nm)) = (t.filter (fun c => c.name == nm)).map f := ih
        simp only [mapNamed, List.map_cons, h1, if_true, List.filter_cons, h2,
          List.map_cons]
        rw [ih2]
      · have h1 : (c.name == nm) = false := by simp [hc]
        simp only [mapNamed, List.map_cons, h1, Bool.false_eq_true, if_false,
          List.filter_cons]
        exact ih

/-- A list with a name match splits at the last match. -/
theorem split_last_match (nm : String) (l : List Section)
    (h : l.filter (fun c => c.name == nm) ≠ []) :
    ∃ l₁ x l₂, l = l₁ ++ x :: l₂ ∧ x.name = nm
      ∧ l₂.filter (fun c => c.name == nm) = []
      ∧ l.filter (fun c => c.name == nm)
          = (l₁.filter (fun c => c.name == nm)) ++ [x] := by
  induction l with
  | nil => simp at h
  | cons c t ih =>
      by_cases ht : t.filter (fun c => c.name == nm) = []
      · have hc : c.name = nm := by
          by_contra hc
          have h1 : (c.name == nm) = false := by simp [hc]
          rw [List.filter_cons, h1] at h
          simp only [Bool.false_eq_true, if_false] at h
          exact h ht
        refine ⟨[], c, t, by simp, hc, ht, ?_⟩
        have h1 : (c.name == nm) = true := by simp [hc]
        simp [List.filter_cons, h1, ht]
      · rcases ih ht with ⟨l₁, x, l₂, hsplit, hx, hl₂, hfil⟩
        refine ⟨c :: l₁, x, l₂, by simp [hsplit], hx, hl₂, ?_⟩
        by_cases hc : c.name = nm
        · have h1 : (c.name == nm) = true := by simp [hc]
          simp [List.filter_cons, h1, hfil]
        · have h1 : (c.name == nm) = false := by simp [hc]
          simp [List.filter_cons, h1, hfil]

/-- Without a match, `mapNamedLast` changes nothing. -/
theorem mapNamedLast_no_match (nm : String) (f g : Section → Section)
    (l : List Section) (h : l.filter (fun c => c.name == nm) = []) :
    mapNamedLast nm f g l = l := by
  induction l with
  | nil => rfl
  | cons c t ih =>
      have hc : (c.name == nm) = false := by
        by_contra hb
        have h1 : (c.name == nm) = true := by
          cases hh : (c.name == nm) <;> simp [hh] at hb ⊢
        rw [List.filter_cons, h1] at h
        simp at h
      rw [List.filter_cons, hc] at h
      simp only [Bool.false_eq_true, if_false] at h
      simp only [mapNamedLast, hc, Bool.false_eq_true, if_false]
      rw [ih h]

/-- `mapNamedLast` on a list split at its last match: earlier matches get
`f`, the last match gets `g`, everything else is untouched. -/
theorem mapNamedLast_decomp (nm : String) (f g : Section → Section)
    (l₁ l₂ : List Section) (x : Section) (hx : x.name = nm)
    (hl₂ : l₂.filter (fun c => c.name == nm) = []) :
    mapNamedLast nm f g (l₁ ++ x :: l₂) = mapNamed nm f l₁ ++ g x :: l₂ := by
  induction l₁ with
  | nil =>
      have h1 : (x.name == nm) = true := by simp [hx]
      have h2 : (l₂.filter (fun c => c.name == nm)).isEmpty = true := by
        simp [hl₂]
      simp only [List.nil_append, mapNamedLast, h1, if_true, h2, mapNamed,
        List.map_nil]
      rw [mapNamedLast_no_match nm f g l₂ hl₂]
  | cons c t ih =>
      by_cases hc : c.name = nm
      · have h1 : (c.name == nm) = true := by simp [hc]
        have h2 : (((t ++ x :: l₂).filter (fun c => c.name == nm)).isEmpty)
            = false := by
          have hxin : x ∈ (t ++ x :: l₂).filter (fun c => c.name == nm) :=
            List.mem_filter.2 ⟨by simp, by simp [hx]⟩
          cases hh : (t ++ x :: l₂).filter (fun c => c.name == nm) with
          | nil => rw [hh] at hxin; exact absurd hxin (List.not_mem_nil x)
          | cons a b => simp
        simp only [List.cons_append, mapNamedLast, List.append_eq, h1, if_true,
          h2, Bool.false_eq_true, if_false]
        rw [ih]
        simp [mapNamed, hc]
      · have h1 : (c.name == nm) = false := by simp [hc]
        simp only [List.cons_append, mapNamedLast, List.append_eq, h1,
          Bool.false_eq_true, if_false]
        rw [ih]
        simp [mapNamed, hc]

/-- Emptiness of a section in terms of its fields. -/
theorem empty_iff (s : Section) :
    s.empty = true ↔ s.attrs = [] ∧ s.children = [] := by
  unfold Section.empty
  rw [Bool.and_eq_true]
  constructor
  · rintro ⟨h1, h2⟩
    exact ⟨List.isEmpty_iff.1 h1, List.isEmpty_iff.1 h2⟩
  · rintro ⟨h1, h2⟩
    exact ⟨by simp [h1], by simp [h2]⟩

/-- A section whose pruned form is empty has no attributes. -/
theorem attrs_of_prune_empty (s : Section) (h : s.prune.empty = true) :
    s.attrs = [] := by
  have h1 := (empty_iff s.prune).1 h
  rw [prune_attrs] at h1
  exact h1.1

/-- A section whose pruned form is empty prunes all its children away. -/
theorem pruneChildren_of_prune_empty (s : Section) (h : s.prune.empty = true) :
    pruneChildren s.children = [] := by
  have h1 := (empty_iff s.prune).1 h
  rw [prune_children] at h1
  exact h1.2

/-- A section that keeps an attribute is not empty after pruning. -/
theorem prune_not_empty_of_attrs (s : Section) (h : s.attrs ≠ []) :
    s.prune.empty = false := by
  cases he : s.prune.empty with
  | false => rfl
  | true => exact absurd (attrs_of_prune_empty s he) h

/-- Names never change under pruning, so name filters commute with
`pruneChildren`. -/
theorem filter_name_pruneChildren (nm : String) (l : List Section) :
    (pruneChildren l).filter (fun s => s.name == nm)
      = ((l.filter (fun s => s.name == nm)).map Section.prune).filter
          (fun s => !s.empty) := by
  induction l with
  | nil => rfl
  | cons c t ih =>
      by_cases he : c.prune.empty
      · have hne : (!c.prune.empty) = false := by simp [he]
        by_cases hc : c.name = nm
        · have h1 : (c.name == nm) = true := by simp [hc]
          simp only [pruneChildren, he, if_true, List.filter_cons, h1,
            List.map_cons, hne, Bool.false_eq_true, if_false]
          exact ih
        · have h1 : (c.name == nm) = false := by simp [hc]
          simp only [pruneChildren, he, if_true, List.filter_cons, h1,
            Bool.false_eq_true, if_false]
          exact ih
      · have hne : (!c.prune.empty) = true := by simp [he]
        have he' : c.prune.empty = false := by simp [he]
        by_cases hc : c.name = nm
        · have h1 : (c.name == nm) = true := by simp [hc]
          have h2 : (c.prune.name == nm) = true := by simp [hc]
          simp only [pruneChildren, he', Bool.false_eq_true, if_false,
            List.filter_cons, h2, if_true, h1, List.map_cons, hne,
            Bool.not_false]
          rw [ih]
        · have h1 : (c.name == nm) = false := by simp [hc]
          have h2 : (c.prune.name == nm) = false := by simp [hc]
          simp only [pruneChildren, he', Bool.false_eq_true, if_false,
            List.filter_cons, h2, h1]
          exact ih

/-- Dropping pruned-empty sections does not change an accumulated view that
is empty on empty sections and blind to pruning. -/
theorem flatten_map_prune_filter {α : Type} (F : Section → List α)
    (hFp : ∀ s, F s.prune = F s)
    (hFe : ∀ s, s.prune.empty = true → F s = [])
    (xs : List Section) :
    ((((xs.map Section.prune).filter (fun s => !s.empty)).map F).flatten)
      = ((xs.map F).flatten) := by
  induction xs with
  | nil => rfl
  | cons x t ih =>
      by_cases he : x.prune.empty
      · have hne : (!x.prune.empty) = false := by simp [he]
        simp only [List.map_cons, List.filter_cons, hne, Bool.false_eq_true,
          if_false, List.flatten_cons]
        rw [hFe x he]
        simpa using ih
      · have hne : (!x.prune.empty) = true := by simp [he]
        simp only [List.map_cons, List.filter_cons, hne, if_true,
          List.flatten_cons]
        rw [hFp x, ih]

/-- The `auto_tie_breaker` attribute list as a flatten over the quorum
children. -/
theorem atb_list_eq (c : Section) :
    atb_list c
      = (((c.children.filter (fun s => s.name == "quorum")).map
          (fun q => q.attrs.filter (fun b => b.1 == "auto_tie_breaker"))).flatten) := rfl

/-- Pruning does not change the `auto_tie_breaker` attribute list. -/
theorem atb_list_prune (c : Section) : atb_list c.prune = atb_list c := by
  rw [atb_list_eq, atb_list_eq, prune_children, filter_name_pruneChildren]
  exact flatten_map_prune_filter
    (fun q => q.attrs.filter (fun b => b.1 == "auto_tie_breaker"))
    (fun s => by
      show s.prune.attrs.filter _ = s.attrs.filter _
      rw [prune_attrs])
    (fun s hs => by
      show s.attrs.filter _ = []
      rw [attrs_of_prune_empty s hs]
      rfl)
    (c.children.filter (fun s => s.name == "quorum"))

/-- Projection of each node is blind to pruning. -/
theorem nodeOf_prune (nd : Section) : nodeOf nd.prune = nodeOf nd := by
  unfold nodeOf
  rw [prune_attrs]

/-- Pruning does not change the node list, as long as every node section
carries an attribute. -/
theorem get_nodes_prune (c : Section) (h : nodes_have_attrs c) :
    get_nodes c.prune = get_nodes c := by
  unfold get_nodes Section.get_sections_named
  rw [prune_children, filter_name_pruneChildren]
  have hrestr : ∀ nl ∈ c.children.filter (fun s => s.name == "nodelist"),
      ∀ nd ∈ nl.children, nd.name = "node" → nd.attrs ≠ [] := by
    intro nl hnl
    have hmem := List.mem_filter.1 hnl
    exact h nl hmem.1 (by simpa using hmem.2)
  generalize hxs : c.children.filter (fun s => s.name == "nodelist") = xs at hrestr
  clear hxs h
  induction xs with
  | nil => rfl
  | cons nl t ih =>
      have hnl := hrestr nl (by simp)
      have iht := ih (fun x hx => hrestr x (by simp [hx]))
      by_cases he : nl.prune.empty
      · have hne : (!nl.prune.empty) = false := by simp [he]
        simp only [List.map_cons, List.filter_cons, hne, Bool.false_eq_true,
          if_false, List.flatten_cons]
        have hinner : nl.children.filter (fun s => s.name == "node") = [] := by
          cases hf : nl.children.filter (fun s => s.name == "node") with
          | nil => rfl
          | cons nd rest =>
              have hnd : nd ∈ nl.children.filter (fun s => s.name == "node") := by
                rw [hf]; simp
              have hmem := List.mem_filter.1 hnd
              have hattr : nd.attrs ≠ [] :=
                hnl nd hmem.1 (by simpa using hmem.2)
              have hk : nd.prune ∈ ((nl.children.filter
                  (fun s => s.name == "node")).map Section.prune).filter
                    (fun s => !s.empty) := by
                refine List.mem_filter.2 ⟨List.mem_map_of_mem Section.prune hnd, ?_⟩
                rw [prune_not_empty_of_attrs nd hattr]
                rfl
              rw [← filter_name_pruneChildren,
                pruneChildren_of_prune_empty nl he] at hk
              exact absurd hk (List.not_mem_nil _)
        rw [hinner]
        simp only [List.map_nil, List.nil_append]
        exact iht
      · have hne : (!nl.prune.empty) = true := by simp [he]
        simp only [List.map_cons, List.filter_cons, hne, if_true,
          List.flatten_cons]
        rw [iht]
        congr 1
        rw [prune_children, filter_name_pruneChildren]
        have hkeep : ((nl.children.filter (fun s => s.name == "node")).map
            Section.prune).filter (fun s => !s.empty)
            = (nl.children.filter (fun s => s.name == "node")).map
                Section.prune := by
          rw [List.filter_eq_self]
          intro nd hnd
          rcases List.mem_map.1 hnd with ⟨nd0, hnd0, hnd0e⟩
          have hmem0 := List.mem_filter.1 hnd0
          have hattr : nd0.attrs ≠ [] :=
            hnl nd0 hmem0.1 (by simpa using hmem0.2)
          rw [← hnd0e, prune_not_empty_of_attrs nd0 hattr]
          rfl
        rw [hkeep, List.map_map]
        apply List.map_congr_left
        intro nd hnd
        exact nodeOf_prune nd

/-- Characterization of `has_quorum_device` (internal form). -/
theorem has_quorum_device_iff (c : Section) :
    has_quorum_device c = true ↔
      ∃ q ∈ c.children.filter (fun s => s.name == "quorum"),
        ∃ d ∈ q.children.filter (fun s => s.name == "device"),
          d.attrs.filter (fun b => b.1 == "model") ≠ [] := by
  simp [has_quorum_device, Section.get_sections_named,
    Section.get_attributes_named, List.any_eq_true, List.isEmpty_eq_false]
  tauto

/-- Pruning does not change whether a quorum device is configured. -/
theorem has_quorum_device_prune (c : Section) :
    has_quorum_device c.prune = has_quorum_device c := by
  apply Bool.eq_iff_iff.2
  rw [has_quorum_device_iff, has_quorum_device_iff]
  constructor
  · rintro ⟨q', hq', d', hd', hm'⟩
    rw [prune_children, filter_name_pruneChildren] at hq'
    have hq'' := List.mem_filter.1 hq'
    rcases List.mem_map.1 hq''.1 with ⟨q, hq, hqe⟩
    rw [← hqe, prune_children, filter_name_pruneChildren] at hd'
    have hd'' := List.mem_filter.1 hd'
    rcases List.mem_map.1 hd''.1 with ⟨d, hd, hde⟩
    refine ⟨q, hq, d, hd, ?_⟩
    rw [← hde, prune_attrs] at hm'
    exact hm'
  · rintro ⟨q, hq, d, hd, hm⟩
    have hdattrs : d.attrs ≠ [] := by
      intro hnil
      rw [hnil] at hm
      exact hm rfl
    have hdkeep : d.prune.empty = false := prune_not_empty_of_attrs d hdattrs
    have hdin : d.prune ∈ (q.prune.children.filter
        (fun s => s.name == "device")) := by
      rw [prune_children, filter_name_pruneChildren]
      refine List.mem_filter.2 ⟨List.mem_map_of_mem Section.prune hd, ?_⟩
      rw [hdkeep]
      rfl
    have hqkeep : q.prune.empty = false := by
      cases he : q.prune.empty with
      | false => rfl
      | true =>
          have h1 := (empty_iff q.prune).1 he
          have h2 : d.prune ∈ (q.prune.children.filter
              (fun s => s.name == "device")) := hdin
          rw [h1.2] at h2
          exact absurd h2 (List.not_mem_nil _)
    refine ⟨q.prune, ?_, d.prune, hdin, ?_⟩
    · rw [prune_children, filter_name_pruneChildren]
      refine List.mem_filter.2 ⟨List.mem_map_of_mem Section.prune hq, ?_⟩
      rw [hqkeep]
      rfl
    · rw [prune_attrs]
      exact hm

@[simp] theorem strip_options_name (o : List (String × String)) (s : Section) :
    (strip_options o s).name = s.name := by rw [strip_options_eq]; rfl

@[simp] theorem strip_options_children (o : List (String × String))
    (s : Section) : (strip_options o s).children = s.children := by
  rw [strip_options_eq]; rfl

@[simp] theorem strip_options_attrs (o : List (String × String))
    (s : Section) : (strip_options o s).attrs = stripOptList o s.attrs := by
  rw [strip_options_eq]; rfl

@[simp] theorem apply_options_name (o : List (String × String)) (s : Section) :
    (apply_options o s).name = s.name := by rw [apply_options_eq]; rfl

@[simp] theorem apply_options_children (o : List (String × String))
    (s : Section) : (apply_options o s).children = s.children := by
  rw [apply_options_eq]; rfl

@[simp] theorem apply_options_attrs (o : List (String × String))
    (s : Section) :
    (apply_options o s).attrs = applyOptList (sortOpts o) s.attrs := by
  rw [apply_options_eq]; rfl

@[simp] theorem ensure_section_name (c : Section) (nm : String) :
    (ensure_section c nm).name = c.name := by
  unfold ensure_section
  by_cases h : (c.get_sections_named nm).isEmpty <;>
    simp [h, Section.add_section]

@[simp] theorem ensure_section_attrs (c : Section) (nm : String) :
    (ensure_section c nm).attrs = c.attrs := by
  unfold ensure_section
  by_cases h : (c.get_sections_named nm).isEmpty <;>
    simp [h, Section.add_section]

/-- Children of `ensure_section`: unchanged or with a fresh empty section
appended. -/
theorem ensure_section_children (c : Section) (nm : String) :
    (ensure_section c nm).children
      = if (c.children.filter (fun s => s.name == nm)).isEmpty then
          c.children ++ [.mk nm [] []]
        else c.children := by
  unfold ensure_section Section.get_sections_named
  by_cases h : (c.children.filter (fun s => s.name == nm)).isEmpty <;>
    simp [h, Section.add_section]

/-- `ensure_section` leaves the sections of every other name unchanged. -/
theorem filter_name_ensure_ne (c : Section) (nm nm' : String) (h : nm' ≠ nm) :
    (ensure_section c nm).children.filter (fun s => s.name == nm')
      = c.children.filter (fun s => s.name == nm') := by
  rw [ensure_section_children]
  by_cases he : (c.children.filter (fun s => s.name == nm)).isEmpty
  · have h1 : ((Section.mk nm [] []).name == nm') = false := by
      simp [Ne.symm h]
    simp only [he, if_true, List.filter_append, List.filter_cons, h1,
      Bool.false_eq_true, if_false, List.filter_nil, List.append_nil]
  · simp [he]

/-- After `ensure_section` a section of the requested name exists. -/
theorem filter_name_ensure_self (c : Section) (nm : String) :
    (ensure_section c nm).children.filter (fun s => s.name == nm) ≠ [] := by
  rw [ensure_section_children]
  by_cases he : (c.children.filter (fun s => s.name == nm)).isEmpty
  · simp [he, List.filter_append]
  · intro hc
    rw [if_neg he] at hc
    rw [hc] at he
    exact he rfl

/-- `mapNamedLast` with name-preserving functions leaves other name filters
unchanged. -/
theorem filter_name_mapNamedLast_ne (nm nm' : String) (f g : Section → Section)
    (l : List Section) (hf : ∀ s, (f s).name = s.name)
    (hg : ∀ s, (g s).name = s.name) (h : nm' ≠ nm) :
    (mapNamedLast nm f g l).filter (fun c => c.name == nm')
      = l.filter (fun c => c.name == nm') := by
  by_cases hl : l.filter (fun c => c.name == nm) = []
  · rw [mapNamedLast_no_match nm f g l hl]
  · rcases split_last_match nm l hl with ⟨l₁, x, l₂, hsplit, hx, hl₂, _⟩
    subst hsplit
    rw [mapNamedLast_decomp nm f g l₁ l₂ x hx hl₂]
    have hgx : ((g x).name == nm') = false := by simp [hg, hx, Ne.symm h]
    have hxx : (x.name == nm') = false := by simp [hx, Ne.symm h]
    simp only [List.filter_append, List.filter_cons, hgx, hxx,
      Bool.false_eq_true, if_false]
    rw [filter_name_mapNamed_ne nm nm' f l₁ hf h]

@[simp] theorem set_section_options_name (nm : String)
    (o : List (String × String)) (c : Section) :
    (set_section_options nm o c).name = c.name := rfl

@[simp] theorem set_section_options_attrs (nm : String)
    (o : List (String × String)) (c : Section) :
    (set_section_options nm o c).attrs = c.attrs := rfl

theorem set_section_options_children (nm : String)
    (o : List (String × String)) (c : Section) :
    (set_section_options nm o c).children
      = mapNamedLast nm (strip_options o) (apply_options o) c.children := rfl

/-- `set_section_options` leaves the sections of every other name
unchanged. -/
theorem filter_name_sso_ne (nm nm' : String) (o : List (String × String))
    (c : Section) (h : nm' ≠ nm) :
    (set_section_options nm o c).children.filter (fun s => s.name == nm')
      = c.children.filter (fun s => s.name == nm') := by
  rw [set_section_options_children]
  exact filter_name_mapNamedLast_ne nm nm' _ _ c.children
    (fun s => strip_options_name o s) (fun s => apply_options_name o s) h

@[simp] theorem fix_algorithms_name (b : Bool) (c : Section) :
    (fix_algorithms b c).name = c.name := rfl

@[simp] theorem fix_algorithms_attrs (b : Bool) (c : Section) :
    (fix_algorithms b c).attrs = c.attrs := rfl

/-- The per-quorum function of `fix_algorithms`. -/
def fixQ (b : Bool) (q : Section) : Section :=
  .mk q.name q.attrs
    (mapNamed "device"
      (fun d => .mk d.name d.attrs
        (mapNamed "net" (fix_algorithm_net b) d.children))
      q.children)

theorem fix_algorithms_children (b : Bool) (c : Section) :
    (fix_algorithms b c).children = mapNamed "quorum" (fixQ b) c.children := rfl

@[simp] theorem fixQ_name (b : Bool) (q : Section) : (fixQ b q).name = q.name := rfl

@[simp] theorem fixQ_attrs (b : Bool) (q : Section) : (fixQ b q).attrs = q.attrs := rfl

/-- `fix_algorithms` leaves the sections of names other than `quorum`
unchanged. -/
theorem filter_name_fix_ne (b : Bool) (nm' : String) (c : Section)
    (h : nm' ≠ "quorum") :
    (fix_algorithms b c).children.filter (fun s => s.name == nm')
      = c.children.filter (fun s => s.name == nm') := by
  rw [fix_algorithms_children]
  exact filter_name_mapNamed_ne "quorum" nm' (fixQ b) c.children
    (fun s => rfl) h

@[simp] theorem del_attributes_name (s : Section) (n : String) :
    (s.del_attributes_by_name n).name = s.name := rfl

@[simp] theorem del_attributes_children (s : Section) (n : String) :
    (s.del_attributes_by_name n).children = s.children := rfl

@[simp] theorem del_attributes_attrs (s : Section) (n : String) :
    (s.del_attributes_by_name n).attrs
      = s.attrs.filter (fun a => a.1 != n) := rfl

@[simp] theorem set_attribute_name (s : Section) (n v : String) :
    (s.set_attribute n v).name = s.name := rfl

@[simp] theorem set_attribute_children (s : Section) (n v : String) :
    (s.set_attribute n v).children = s.children := rfl

@[simp] theorem set_attribute_attrs (s : Section) (n v : String) :
    (s.set_attribute n v).attrs = setAttrList n v s.attrs := rfl

/-- Transport of a per-section view through `mapNamed`. -/
theorem view_filter_mapNamed {α : Type} (nm : String) (f : Section → Section)
    (l : List Section) (view : Section → α)
    (hf : ∀ s, (f s).name = s.name)
    (hview : ∀ s ∈ l, s.name = nm → view (f s) = view s) :
    ((mapNamed nm f l).filter (fun s => s.name == nm)).map view
      = (l.filter (fun s => s.name == nm)).map view := by
  rw [filter_name_mapNamed_self nm f l hf, List.map_map]
  apply List.map_congr_left
  intro s hs
  have hmem := List.mem_filter.1 hs
  exact hview s hmem.1 (by simpa using hmem.2)

/-- Transport of a per-section view through `mapNamedLast`. -/
theorem view_filter_mapNamedLast {α : Type} (nm : String)
    (f g : Section → Section) (l : List Section) (view : Section → α)
    (hf : ∀ s, (f s).name = s.name) (hg : ∀ s, (g s).name = s.name)
    (hviewf : ∀ s ∈ l, s.name = nm → view (f s) = view s)
    (hviewg : ∀ s ∈ l, s.name = nm → view (g s) = view s) :
    ((mapNamedLast nm f g l).filter (fun s => s.name == nm)).map view
      = (l.filter (fun s => s.name == nm)).map view := by
  by_cases hl : l.filter (fun c => c.name == nm) = []
  · rw [mapNamedLast_no_match nm f g l hl]
  · rcases split_last_match nm l hl with ⟨l₁, x, l₂, hsplit, hx, hl₂, hfil⟩
    have hxmem : x ∈ l := by rw [hsplit]; simp
    subst hsplit
    rw [mapNamedLast_decomp nm f g l₁ l₂ x hx hl₂]
    have hgx : ((g x).name == nm) = true := by simp [hg, hx]
    have hxx : (x.name == nm) = true := by simp [hx]
    simp only [List.filter_append, List.filter_cons, hgx, hxx, if_true,
      List.map_append, List.map_cons]
    rw [filter_name_mapNamed_self nm f l₁ hf, List.map_map]
    congr 1
    · apply List.map_congr_left
      intro s hs
      have hmem := List.mem_filter.1 hs
      exact hviewf s (by simp [hmem.1]) (by simpa using hmem.2)
    · rw [hviewg x hxmem hx]

/-- The `auto_tie_breaker` view of one quorum section. -/
def vATB (q : Section) : List (String × String) :=
  q.attrs.filter (fun b => b.1 == "auto_tie_breaker")

/-- The quorum-device test of one quorum section. -/
def pQD (q : Section) : Bool :=
  (q.children.filter (fun s => s.name == "device")).any
    (fun d => !(d.attrs.filter (fun b => b.1 == "model")).isEmpty)

theorem atb_list_eq_vATB (c : Section) :
    atb_list c
      = ((c.children.filter (fun s => s.name == "quorum")).map vATB).flatten := rfl

theorem has_quorum_device_eq_pQD (c : Section) :
    has_quorum_device c
      = (c.children.filter (fun s => s.name == "quorum")).any pQD := rfl

/-- Equal images give equal `any` results. -/
theorem any_eq_of_map_eq {α : Type} (p : α → Bool) (l l' : List α)
    (h : l'.map p = l.map p) : l'.any p = l.any p := by
  induction l generalizing l' with
  | nil =>
      cases l' with
      | nil => rfl
      | cons b t' => simp at h
  | cons a t ih =>
      cases l' with
      | nil => simp at h
      | cons b t' =>
          simp only [List.map_cons, List.cons.injEq] at h
          simp [List.any_cons, h.1, ih t' h.2]

theorem vATB_strip (o : List (String × String))
    (ho : ∀ nv ∈ o, nv.1 ≠ "auto_tie_breaker") (s : Section) :
    vATB (strip_options o s) = vATB s := by
  unfold vATB
  rw [strip_options_attrs]
  exact filter_key_stripOptList_not_mem _ o s.attrs ho

theorem vATB_apply (o : List (String × String))
    (ho : ∀ nv ∈ o, nv.1 ≠ "auto_tie_breaker") (s : Section) :
    vATB (apply_options o s) = vATB s := by
  unfold vATB
  rw [apply_options_attrs]
  exact filter_key_applyOptList_not_mem _ (sortOpts o) s.attrs
    (fun nv hnv => ho nv ((mem_sortOpts nv o).1 hnv))

theorem vATB_del_two_node (s : Section) :
    vATB (s.del_attributes_by_name "two_node") = vATB s := by
  unfold vATB
  rw [del_attributes_attrs]
  exact filter_key_del_other "auto_tie_breaker" "two_node" (by decide) s.attrs

@[simp] theorem vATB_fixQ (b : Bool) (q : Section) : vATB (fixQ b q) = vATB q := rfl

@[simp] theorem pQD_strip (o : List (String × String)) (s : Section) :
    pQD (strip_options o s) = pQD s := by
  unfold pQD
  rw [strip_options_children]

@[simp] theorem pQD_apply (o : List (String × String)) (s : Section) :
    pQD (apply_options o s) = pQD s := by
  unfold pQD
  rw [apply_options_children]

@[simp] theorem pQD_del (s : Section) (n : String) :
    pQD (s.del_attributes_by_name n) = pQD s := rfl

theorem pQD_fixQ (b : Bool) (q : Section) : pQD (fixQ b q) = pQD q := by
  unfold pQD fixQ
  simp only [Section.children_mk]
  apply any_eq_of_map_eq
  exact view_filter_mapNamed "device"
    (fun d => Section.mk d.name d.attrs
      (mapNamed "net" (fix_algorithm_net b) d.children))
    q.children
    (fun d => !(d.attrs.filter (fun b => b.1 == "model")).isEmpty)
    (fun s => rfl) (fun s hs hn => rfl)

/-- Equation form of `update_two_node`. -/
theorem update_two_node_eq (c : Section) :
    update_two_node c
      = fix_algorithms ((get_nodes c).length == 2)
          (if ((get_nodes c).length == 2) && !auto_tie_breaker_flag c
              && !has_quorum_device c then
             set_section_options "quorum" [("two_node", "1")]
               (ensure_section c "quorum")
           else .mk c.name c.attrs
             (mapNamed "quorum" (fun q => q.del_attributes_by_name "two_node")
               c.children)) := rfl

theorem get_nodes_congr (c c' : Section)
    (h : c'.children.filter (fun s => s.name == "nodelist")
      = c.children.filter (fun s => s.name == "nodelist")) :
    get_nodes c' = get_nodes c := by
  unfold get_nodes Section.get_sections_named
  rw [h]

/-- `nodes_have_attrs` in filter form. -/
theorem nodes_have_attrs_iff (c : Section) :
    nodes_have_attrs c ↔
      ∀ nl ∈ c.children.filter (fun s => s.name == "nodelist"),
        ∀ nd ∈ nl.children.filter (fun s => s.name == "node"),
          nd.attrs ≠ [] := by
  constructor
  · intro h nl hnl nd hnd
    have hnl' := List.mem_filter.1 hnl
    have hnd' := List.mem_filter.1 hnd
    exact h nl hnl'.1 (by simpa using hnl'.2) nd hnd'.1 (by simpa using hnd'.2)
  · intro h nl hnl hnlname nd hnd hndname
    exact h nl (List.mem_filter.2 ⟨hnl, by simp [hnlname]⟩) nd
      (List.mem_filter.2 ⟨hnd, by simp [hndname]⟩)

theorem nodes_have_attrs_congr (c c' : Section)
    (h : c'.children.filter (fun s => s.name == "nodelist")
      = c.children.filter (fun s => s.name == "nodelist")) :
    nodes_have_attrs c' ↔ nodes_have_attrs c := by
  rw [nodes_have_attrs_iff, nodes_have_attrs_iff, h]

/-- The nodelist sections are untouched by `update_two_node`. -/
theorem filter_nodelist_update_two_node (c : Section) :
    (update_two_node c).children.filter (fun s => s.name == "nodelist")
      = c.children.filter (fun s => s.name == "nodelist") := by
  rw [update_two_node_eq]
  by_cases hcond : ((get_nodes c).length == 2) && !auto_tie_breaker_flag c
      && !has_quorum_device c
  · rw [if_pos hcond, filter_name_fix_ne _ _ _ (by decide),
      filter_name_sso_ne _ _ _ _ (by decide),
      filter_name_ensure_ne _ _ _ (by decide)]
  · rw [if_neg hcond, filter_name_fix_ne _ _ _ (by decide)]
    exact filter_name_mapNamed_ne "quorum" "nodelist" _ c.children
      (fun s => rfl) (by decide)

theorem get_nodes_update_two_node (c : Section) :
    get_nodes (update_two_node c) = get_nodes c :=
  get_nodes_congr c _ (filter_nodelist_update_two_node c)

theorem nodes_have_attrs_update_two_node (c : Section) :
    nodes_have_attrs (update_two_node c) ↔ nodes_have_attrs c :=
  nodes_have_attrs_congr c _ (filter_nodelist_update_two_node c)

/-- `update_two_node` does not change the `auto_tie_breaker` attribute
list. -/
theorem atb_list_update_two_node (c : Section) :
    atb_list (update_two_node c) = atb_list c := by
  rw [update_two_node_eq]
  have hkeys : ∀ nv ∈ [(("two_node" : String), ("1" : String))],
      nv.1 ≠ "auto_tie_breaker" := by decide
  by_cases hcond : ((get_nodes c).length == 2) && !auto_tie_breaker_flag c
      && !has_quorum_device c
  · rw [if_pos hcond]
    rw [atb_list_eq_vATB, fix_algorithms_children]
    rw [view_filter_mapNamed "quorum" (fixQ _) _ vATB (fun s => rfl)
      (fun s hs hn => vATB_fixQ _ s)]
    rw [set_section_options_children]
    rw [view_filter_mapNamedLast "quorum" _ _ _ vATB
      (fun s => strip_options_name _ s) (fun s => apply_options_name _ s)
      (fun s hs hn => vATB_strip _ hkeys s)
      (fun s hs hn => vATB_apply _ hkeys s)]
    rw [← atb_list_eq_vATB]
    -- atb through ensure
    rw [atb_list_eq_vATB, atb_list_eq_vATB, ensure_section_children]
    by_cases he : (c.children.filter (fun s => s.name == "quorum")).isEmpty
    · rw [if_pos he]
      have h1 : ((Section.mk "quorum" [] []).name == "quorum") = true := by
        decide
      simp [List.filter_append, h1, vATB]
    · rw [if_neg he]
  · rw [if_neg hcond]
    rw [atb_list_eq_vATB, fix_algorithms_children, Section.children_mk]
    rw [view_filter_mapNamed "quorum" (fixQ _) _ vATB (fun s => rfl)
      (fun s hs hn => vATB_fixQ _ s)]
    rw [view_filter_mapNamed "quorum"
      (fun q => q.del_attributes_by_name "two_node") c.children vATB
      (fun s => rfl) (fun s hs hn => vATB_del_two_node s)]
    rfl

/-- `update_two_node` does not change whether a quorum device is
configured. -/
theorem has_quorum_device_update_two_node (c : Section) :
    has_quorum_device (update_two_node c) = has_quorum_device c := by
  rw [update_two_node_eq]
  by_cases hcond : ((get_nodes c).length == 2) && !auto_tie_breaker_flag c
      && !has_quorum_device c
  · rw [if_pos hcond]
    rw [has_quorum_device_eq_pQD, fix_algorithms_children]
    rw [any_eq_of_map_eq pQD _ _
      (view_filter_mapNamed "quorum" (fixQ _) _ pQD (fun s => rfl)
        (fun s hs hn => pQD_fixQ _ s))]
    rw [set_section_options_children]
    rw [any_eq_of_map_eq pQD _ _
      (view_filter_mapNamedLast "quorum" _ _ _ pQD
        (fun s => strip_options_name _ s) (fun s => apply_options_name _ s)
        (fun s hs hn => pQD_strip _ s) (fun s hs hn => pQD_apply _ s))]
    rw [← has_quorum_device_eq_pQD]
    -- through ensure
    rw [has_quorum_device_eq_pQD, has_quorum_device_eq_pQD,
      ensure_section_children]
    by_cases he : (c.children.filter (fun s => s.name == "quorum")).isEmpty
    · rw [if_pos he]
      have h1 : ((Section.mk "quorum" [] []).name == "quorum") = true := by
        decide
      simp [List.filter_append, h1, pQD]
    · rw [if_neg he]
  · rw [if_neg hcond]
    rw [has_quorum_device_eq_pQD, fix_algorithms_children, Section.children_mk]
    rw [any_eq_of_map_eq pQD _ _
      (view_filter_mapNamed "quorum" (fixQ _) _ pQD (fun s => rfl)
        (fun s hs hn => pQD_fixQ _ s))]
    rw [any_eq_of_map_eq pQD _ _
      (view_filter_mapNamed "quorum"
        (fun q => q.del_attributes_by_name "two_node") c.children pQD
        (fun s => rfl) (fun s hs hn => pQD_del s _))]
    rfl

/-- The two-node condition as a boolean. -/
theorem two_node_cond_iff (c : Section) :
    two_node_cond c ↔
      (((get_nodes c).length == 2) && !auto_tie_breaker_flag c
        && !has_quorum_device c) = true := by
  unfold two_node_cond node_count
  simp only [Bool.and_eq_true, Bool.not_eq_true', beq_iff_eq]
  tauto

/-- Concrete sort of the singleton `two_node` option map. -/
theorem sortOpts_two_node :
    sortOpts [(("two_node" : String), ("1" : String))]
      = [("two_node", "1")] := rfl

/-- After `update_two_node` under the two-node condition, the last quorum
section carries exactly `two_node = "1"` and the earlier ones carry no
`two_node` attribute. -/
theorem utn_two_node_set (c : Section)
    (h : (((get_nodes c).length == 2) && !auto_tie_breaker_flag c
      && !has_quorum_device c) = true) :
    ∃ pre x,
      (update_two_node c).children.filter (fun s => s.name == "quorum")
        = pre ++ [x]
      ∧ x.attrs.filter (fun b => b.1 == "two_node") = [("two_node", "1")]
      ∧ ∀ y ∈ pre, y.attrs.filter (fun b => b.1 == "two_node") = [] := by
  rw [update_two_node_eq, if_pos h]
  have hne := filter_name_ensure_self c "quorum"
  rcases split_last_match "quorum" (ensure_section c "quorum").children hne
    with ⟨l₁, x, l₂, hsplit, hx, hl₂, hfil⟩
  rw [fix_algorithms_children, set_section_options_children, hsplit]
  rw [mapNamedLast_decomp "quorum" _ _ l₁ l₂ x hx hl₂]
  rw [filter_name_mapNamed_self "quorum" (fixQ _) _ (fun s => rfl)]
  have happ : ((apply_options [(("two_node" : String), ("1" : String))] x).name
      == "quorum") = true := by simp [hx]
  simp only [List.filter_append, List.filter_cons, happ, if_true]
  rw [filter_name_mapNamed_self "quorum" _ _
    (fun s => strip_options_name _ s), hl₂]
  refine ⟨((l₁.filter (fun c => c.name == "quorum")).map
      (fun s => strip_options [("two_node", "1")] s)).map
        (fixQ ((get_nodes c).length == 2)),
    fixQ ((get_nodes c).length == 2)
      (apply_options [("two_node", "1")] x), ?_, ?_, ?_⟩
  · rw [List.map_append]
    simp
  · rw [fixQ_attrs, apply_options_attrs, sortOpts_two_node]
    exact filter_key_applyOptList_set "two_node" "1" _ x.attrs (by simp)
      (by simp) (by decide)
  · intro y hy
    rcases List.mem_map.1 hy with ⟨y1, hy1, hy1e⟩
    rcases List.mem_map.1 hy1 with ⟨y0, hy0, hy0e⟩
    rw [← hy1e, fixQ_attrs, ← hy0e, strip_options_attrs]
    exact filter_key_stripOptList_mem "two_node" _ y0.attrs
      ⟨("two_node", "1"), by simp, rfl⟩

/-- After `update_two_node` without the two-node condition, no quorum section
carries a `two_node` attribute. -/
theorem utn_two_node_absent (c : Section)
    (h : (((get_nodes c).length == 2) && !auto_tie_breaker_flag c
      && !has_quorum_device c) = false) :
    ∀ q ∈ (update_two_node c).children.filter (fun s => s.name == "quorum"),
      q.attrs.filter (fun b => b.1 == "two_node") = [] := by
  rw [update_two_node_eq, if_neg (by simp [h])]
  rw [fix_algorithms_children, Section.children_mk]
  intro q hq
  rw [filter_name_mapNamed_self "quorum" (fixQ _) _ (fun s => rfl)] at hq
  rcases List.mem_map.1 hq with ⟨q1, hq1, hq1e⟩
  rw [filter_name_mapNamed_self "quorum"
    (fun q => q.del_attributes_by_name "two_node") c.children
    (fun s => rfl)] at hq1
  rcases List.mem_map.1 hq1 with ⟨q0, hq0, hq0e⟩
  rw [← hq1e, fixQ_attrs, ← hq0e, del_attributes_attrs]
  exact filter_key_del_self "two_node" q0.attrs

/-- Pruning after `update_two_node` keeps the claimed `two_node` invariant,
as long as every node section has an attribute. -/
theorem two_node_invariant_master (m : Section) (h : nodes_have_attrs m) :
    two_node_invariant (update_two_node m).prune := by
  have hnodes_u : nodes_have_attrs (update_two_node m) :=
    (nodes_have_attrs_update_two_node m).2 h
  have hn : get_nodes (update_two_node m).prune = get_nodes m := by
    rw [get_nodes_prune _ hnodes_u, get_nodes_update_two_node]
  have hatb : auto_tie_breaker_flag (update_two_node m).prune
      = auto_tie_breaker_flag m := by
    unfold auto_tie_breaker_flag
    rw [atb_list_prune, atb_list_update_two_node]
  have hqd : has_quorum_device (update_two_node m).prune
      = has_quorum_device m := by
    rw [has_quorum_device_prune, has_quorum_device_update_two_node]
  have hcond : two_node_cond (update_two_node m).prune ↔
      (((get_nodes m).length == 2) && !auto_tie_breaker_flag m
        && !has_quorum_device m) = true := by
    rw [two_node_cond_iff, hn, hatb, hqd]
  constructor
  · intro hc
    have hb := hcond.1 hc
    rcases utn_two_node_set m hb with ⟨pre, x, hfil, hxattr, hpre⟩
    have hxne : x.attrs ≠ [] := by
      intro hnil
      rw [hnil] at hxattr
      simp at hxattr
    unfold two_node_set_prop quorum_children Section.get_sections_named
      two_node_attrs Section.get_attributes_named
    rw [prune_children, filter_name_pruneChildren, hfil]
    rw [List.map_append, List.filter_append]
    have hxkeep : (!x.prune.empty) = true := by
      rw [prune_not_empty_of_attrs x hxne]
      rfl
    simp only [List.map_cons, List.map_nil, List.filter_cons, hxkeep, if_true,
      List.filter_nil]
    refine ⟨(pre.map Section.prune).filter (fun s => !s.empty), x.prune,
      rfl, ?_, ?_⟩
    · rw [prune_attrs]
      exact hxattr
    · intro y hy
      have hy' := List.mem_filter.1 hy
      rcases List.mem_map.1 hy'.1 with ⟨y0, hy0, hy0e⟩
      rw [← hy0e, prune_attrs]
      exact hpre y0 hy0
  · intro hc
    have hb : (((get_nodes m).length == 2) && !auto_tie_breaker_flag m
        && !has_quorum_device m) = false := by
      cases hbb : (((get_nodes m).length == 2) && !auto_tie_breaker_flag m
          && !has_quorum_device m) with
      | false => rfl
      | true => exact absurd (hcond.2 hbb) hc
    unfold two_node_absent_prop quorum_children Section.get_sections_named
      two_node_attrs Section.get_attributes_named
    intro q hq
    rw [prune_children, filter_name_pruneChildren] at hq
    have hq' := List.mem_filter.1 hq
    rcases List.mem_map.1 hq'.1 with ⟨q0, hq0, hq0e⟩
    rw [← hq0e, prune_attrs]
    exact utn_two_node_absent m hb q0 hq0

theorem delete_devices_children (c : Section) :
    (delete_devices c).children
      = mapNamed "quorum"
          (fun q => .mk q.name q.attrs
            (q.children.filter (fun d => d.name != "device")))
          c.children := rfl

theorem filter_name_delete_devices_ne (c : Section) (nm' : String)
    (h : nm' ≠ "quorum") :
    (delete_devices c).children.filter (fun s => s.name == nm')
      = c.children.filter (fun s => s.name == nm') := by
  rw [delete_devices_children]
  exact filter_name_mapNamed_ne "quorum" nm' _ c.children (fun s => rfl) h

theorem filter_name_set_device_options_ne (go : List (String × String))
    (l : List Section) (nm' : String) (h : nm' ≠ "quorum") :
    (set_device_options go l).filter (fun s => s.name == nm')
      = l.filter (fun s => s.name == nm') := by
  induction l with
  | nil => rfl
  | cons q rest ih =>
      by_cases hq : q.name = "quorum"
      · have h1 : (q.name == "quorum") = true := by simp [hq]
        have h2 : (q.name == nm') = false := by simp [hq, Ne.symm h]
        by_cases hlater : rest.any
            (fun x => x.name == "quorum" && q_has_device x)
        · simp only [set_device_options, h1, if_true, hlater, if_true,
            List.filter_cons, Section.name_mk, h2, Bool.false_eq_true,
            if_false]
          exact ih
        · simp only [set_device_options, h1, if_true, hlater,
            Bool.false_eq_true, if_false, List.filter_cons, Section.name_mk,
            h2]
          exact ih
      · have h1 : (q.name == "quorum") = false := by simp [hq]
        simp only [set_device_options, h1, Bool.false_eq_true, if_false,
          List.filter_cons]
        by_cases hq' : q.name = nm'
        · have h2 : (q.name == nm') = true := by simp [hq']
          simp only [h2, if_true]
          rw [ih]
        · have h2 : (q.name == nm') = false := by simp [hq']
          simp only [h2, Bool.false_eq_true, if_false]
          exact ih

theorem filter_name_set_model_options_ne (m : Option String)
    (mo : List (String × String)) (l : List Section) (nm' : String)
    (h : nm' ≠ "quorum") :
    (set_model_options m mo l).filter (fun s => s.name == nm')
      = l.filter (fun s => s.name == nm') := by
  induction l with
  | nil => rfl
  | cons q rest ih =>
      by_cases hq : q.name = "quorum"
      · have h1 : (q.name == "quorum") = true := by simp [hq]
        have h2 : (q.name == nm') = false := by simp [hq, Ne.symm h]
        by_cases hlater : rest.any (fun x => x.name == "quorum" && q_has_model m x)
        · simp only [set_model_options, h1, if_true, hlater, if_true,
            List.filter_cons, map_model_in_quorum, Section.name_mk, h2,
            Bool.false_eq_true, if_false]
          exact ih
        · simp only [set_model_options, h1, if_true, hlater,
            Bool.false_eq_true, if_false, List.filter_cons,
            map_model_in_quorum, Section.name_mk, h2]
          exact ih
      · have h1 : (q.name == "quorum") = false := by simp [hq]
        simp only [set_model_options, h1, Bool.false_eq_true, if_false,
          List.filter_cons]
        by_cases hq' : q.name = nm'
        · have h2 : (q.name == nm') = true := by simp [hq']
          simp only [h2, if_true]
          rw [ih]
        · have h2 : (q.name == nm') = false := by simp [hq']
          simp only [h2, Bool.false_eq_true, if_false]
          exact ih

/-- The tree mutated by `set_quorum_options` before re-derivation. -/
def sqo_mutated (options : List (String × String)) (c : Section) : Section :=
  set_section_options "quorum" options (ensure_section c "quorum")

/-- The tree mutated by `add_quorum_device` before re-derivation. -/
def add_mutated (model : String) (mo go : List (String × String))
    (c : Section) : Section :=
  let c3 := delete_devices
    (set_section_options "quorum" add_clear_options
      (ensure_section c "quorum"))
  .mk c3.name c3.attrs
    (mapNamedLast "quorum" id
      (fun q => q.add_section (new_device_section model mo go)) c3.children)

/-- The tree mutated by `update_quorum_device` before re-derivation. -/
def upd_mutated (m : Option String) (mo go : List (String × String))
    (c : Section) : Section :=
  .mk c.name c.attrs (set_model_options m mo (set_device_options go c.children))

theorem set_quorum_options_ok (rp : List ReportItem → Bool)
    (opts : List (String × String)) (c r : Section)
    (h : set_quorum_options rp opts c = .ok r) :
    r = Section.prune (update_two_node (sqo_mutated opts c)) := by
  unfold set_quorum_options at h
  by_cases hrp : rp (validate_quorum_options opts)
  · rw [if_pos hrp] at h
    exact absurd h (by simp)
  · rw [if_neg hrp] at h
    injection h with h
    exact h.symm

theorem add_quorum_device_ok (rp : List ReportItem → Bool) (model : String)
    (mo go : List (String × String)) (c r : Section)
    (h : add_quorum_device rp model mo go c = .ok r) :
    r = Section.prune (update_two_node (add_mutated model mo go c)) := by
  unfold add_quorum_device at h
  by_cases hq : has_quorum_device c
  · rw [if_pos hq] at h
    exact absurd h (by simp)
  · rw [if_neg hq] at h
    by_cases hrp : rp (validate_quorum_device_model model
        ++ validate_quorum_device_model_options c (some model) mo true
        ++ validate_quorum_device_generic_options go)
    · rw [if_pos hrp] at h
      exact absurd h (by simp)
    · rw [if_neg hrp] at h
      injection h with h
      exact h.symm

theorem update_quorum_device_ok (rp : List ReportItem → Bool)
    (mo go : List (String × String)) (c r : Section)
    (h : update_quorum_device rp mo go c = .ok r) :
    r = Section.prune (update_two_node
      (upd_mutated (current_model c) mo go c)) := by
  unfold update_quorum_device at h
  by_cases hq : (!has_quorum_device c) = true
  · rw [if_pos hq] at h
    exact absurd h (by simp)
  · rw [if_neg hq] at h
    by_cases hrp : rp (validate_quorum_device_model_options c
        (current_model c) mo false
        ++ validate_quorum_device_generic_options go)
    · rw [if_pos hrp] at h
      exact absurd h (by simp)
    · rw [if_neg hrp] at h
      by_cases hix : (model_sections_count (current_model c) c == 0
          && !(sortOpts mo).isEmpty) = true
      · rw [if_pos hix] at h
        exact absurd h (by simp)
      · rw [if_neg hix] at h
        injection h with h
        exact h.symm

theorem remove_quorum_device_ok (c r : Section)
    (h : remove_quorum_device c = .ok r) :
    r = Section.prune (update_two_node (delete_devices c)) := by
  unfold remove_quorum_device at h
  by_cases hq : (!has_quorum_device c) = true
  · rw [if_pos hq] at h
    exact absurd h (by simp)
  · rw [if_neg hq] at h
    injection h with h
    exact h.symm

theorem nodes_have_attrs_sqo_mutated (opts : List (String × String))
    (c : Section) (h : nodes_have_attrs c) :
    nodes_have_attrs (sqo_mutated opts c) := by
  refine (nodes_have_attrs_congr c _ ?_).2 h
  unfold sqo_mutated
  rw [filter_name_sso_ne _ _ _ _ (by decide),
    filter_name_ensure_ne _ _ _ (by decide)]

theorem nodes_have_attrs_add_mutated (model : String)
    (mo go : List (String × String)) (c : Section) (h : nodes_have_attrs c) :
    nodes_have_attrs (add_mutated model mo go c) := by
  refine (nodes_have_attrs_congr c _ ?_).2 h
  unfold add_mutated
  rw [Section.children_mk]
  rw [filter_name_mapNamedLast_ne "quorum" "nodelist" id
    (fun q => q.add_section (new_device_section model mo go)) _
    (fun s => rfl) (fun s => rfl) (by decide)]
  rw [filter_name_delete_devices_ne _ _ (by decide),
    filter_name_sso_ne _ _ _ _ (by decide),
    filter_name_ensure_ne _ _ _ (by decide)]

theorem nodes_have_attrs_upd_mutated (m : Option String)
    (mo go : List (String × String)) (c : Section) (h : nodes_have_attrs c) :
    nodes_have_attrs (upd_mutated m mo go c) := by
  refine (nodes_have_attrs_congr c _ ?_).2 h
  unfold upd_mutated
  rw [Section.children_mk]
  rw [filter_name_set_model_options_ne _ _ _ _ (by decide),
    filter_name_set_device_options_ne _ _ _ (by decide)]

theorem nodes_have_attrs_delete_devices (c : Section)
    (h : nodes_have_attrs c) : nodes_have_attrs (delete_devices c) := by
  refine (nodes_have_attrs_congr c _ ?_).2 h
  exact filter_name_delete_devices_ne _ _ (by decide)

/-- Claim C1 (amended): provided every node section carries at least one
attribute (so empty-section pruning cannot change the node count), after
every mutating facade operation the `two_node` attribute is set to `"1"` on
the last `quorum` section iff the node count is 2, `auto_tie_breaker` is not
truthy and no quorum device is configured — and in every other case the
attribute is removed from every `quorum` section. -/
theorem claim_C1_two_node_invariant (c : Section) (h : nodes_have_attrs c) :
    (∀ rp opts r, set_quorum_options rp opts c = .ok r →
      two_node_invariant r)
    ∧ (∀ rp model mo go r, add_quorum_device rp model mo go c = .ok r →
        two_node_invariant r)
    ∧ (∀ rp mo go r, update_quorum_device rp mo go c = .ok r →
        two_node_invariant r)
    ∧ (∀ r, remove_quorum_device c = .ok r → two_node_invariant r) := by
  refine ⟨fun rp opts r hr => ?_, fun rp model mo go r hr => ?_,
    fun rp mo go r hr => ?_, fun r hr => ?_⟩
  · rw [set_quorum_options_ok rp opts c r hr]
    exact two_node_invariant_master _ (nodes_have_attrs_sqo_mutated opts c h)
  · rw [add_quorum_device_ok rp model mo go c r hr]
    exact two_node_invariant_master _
      (nodes_have_attrs_add_mutated model mo go c h)
  · rw [update_quorum_device_ok rp mo go c r hr]
    exact two_node_invariant_master _
      (nodes_have_attrs_upd_mutated (current_model c) mo go c h)
  · rw [remove_quorum_device_ok c r hr]
    exact two_node_invariant_master _ (nodes_have_attrs_delete_devices c h)

mutual

/-- No section anywhere below this one is empty. -/
def Section.wellPruned : Section → Bool
| .mk _ _ cs => wellPrunedList cs

/-- All sections of the list are nonempty and recursively well pruned. -/
def wellPrunedList : List Section → Bool
| [] => true
| c :: cs => !c.empty && c.wellPruned && wellPrunedList cs

end

@[simp] theorem wellPruned_mk (n : String) (a : List (String × String))
    (cs : List Section) :
    (Section.mk n a cs).wellPruned = wellPrunedList cs := rfl

/-- After pruning, no empty section remains anywhere in the tree. -/
theorem prune_wellPruned (s : Section) : s.prune.wellPruned = true := by
  induction s using Section.induct with
  | h n a cs ih =>
      rw [prune_mk, wellPruned_mk]
      induction cs with
      | nil => rfl
      | cons c t iht =>
          have hc := ih c (by simp)
          have iht' := iht (fun x hx => ih x (by simp [hx]))
          by_cases he : c.prune.empty
          · simp only [pruneChildren, he, if_true]
            exact iht'
          · have he' : c.prune.empty = false := by simp [he]
            simp only [pruneChildren, he', Bool.false_eq_true, if_false,
              wellPrunedList, he', Bool.not_false, Bool.true_and, hc,
              Bool.and_eq_true]
            exact iht'

/-- Membership of an attribute name in the quorum options implies it is not
`two_node`. -/
theorem quorum_option_ne_two_node (n : String) (h : n ∈ QUORUM_OPTIONS) :
    n ≠ "two_node" := by
  intro he
  subst he
  revert h
  decide

/-- After `set_quorum_options` mutates, every quorum section lacks every
option that was set to the empty string. -/
theorem sqo_mutated_empty_removed (opts : List (String × String))
    (c : Section) (n : String) (hnd : (opts.map Prod.fst).Nodup)
    (hmem : (n, "") ∈ opts) :
    ∀ q ∈ (sqo_mutated opts c).children.filter (fun s => s.name == "quorum"),
      q.attrs.filter (fun b => b.1 == n) = [] := by
  unfold sqo_mutated
  rw [set_section_options_children]
  have hne := filter_name_ensure_self c "quorum"
  rcases split_last_match "quorum" (ensure_section c "quorum").children hne
    with ⟨l₁, x, l₂, hsplit, hx, hl₂, hfil⟩
  rw [hsplit, mapNamedLast_decomp "quorum" _ _ l₁ l₂ x hx hl₂]
  intro q hq
  have happ : ((apply_options opts x).name == "quorum") = true := by
    simp [hx]
  rw [List.filter_append, List.filter_cons, happ, if_pos rfl] at hq
  rw [filter_name_mapNamed_self "quorum" _ _
    (fun s => strip_options_name _ s), hl₂] at hq
  rcases List.mem_append.1 hq with h1 | h2
  · rcases List.mem_map.1 h1 with ⟨q0, hq0, hq0e⟩
    rw [← hq0e, strip_options_attrs]
    exact filter_key_stripOptList_mem n opts q0.attrs ⟨(n, ""), hmem, rfl⟩
  · rcases List.mem_cons.1 h2 with h3 | h3
    · rw [h3, apply_options_attrs]
      exact filter_key_applyOptList_del n (sortOpts opts) x.attrs
        (sortOpts_nodup_keys opts hnd) ((mem_sortOpts _ _).2 hmem)
    · exact absurd h3 (List.not_mem_nil q)

/-- `update_two_node` preserves the absence of any non-`two_node` attribute
from all quorum sections. -/
theorem utn_keeps_absent (m : Section) (n : String) (hn : n ≠ "two_node")
    (h : ∀ q ∈ m.children.filter (fun s => s.name == "quorum"),
      q.attrs.filter (fun b => b.1 == n) = []) :
    ∀ q ∈ (update_two_node m).children.filter (fun s => s.name == "quorum"),
      q.attrs.filter (fun b => b.1 == n) = [] := by
  have hkeys1 : ∀ nv ∈ [(("two_node" : String), ("1" : String))],
      nv.1 ≠ n := by
    intro nv hnv
    rw [List.mem_singleton.1 hnv]
    exact Ne.symm hn
  rw [update_two_node_eq]
  by_cases hcond : ((get_nodes m).length == 2) && !auto_tie_breaker_flag m
      && !has_quorum_device m
  · rw [if_pos hcond, fix_algorithms_children]
    have hens : ∀ q ∈ (ensure_section m "quorum").children.filter
        (fun s => s.name == "quorum"),
        q.attrs.filter (fun b => b.1 == n) = [] := by
      intro q hq
      rw [ensure_section_children] at hq
      by_cases he : (m.children.filter (fun s => s.name == "quorum")).isEmpty
      · rw [if_pos he, List.filter_append] at hq
        rcases List.mem_append.1 hq with h1 | h2
        · exact h q h1
        · have h3 : q = Section.mk "quorum" [] [] := by
            have h4 : ((Section.mk "quorum" [] []).name == "quorum") = true := by
              decide
            simp only [List.filter_cons, h4, if_true, List.filter_nil] at h2
            exact List.mem_singleton.1 h2
          rw [h3]
          rfl
      · rw [if_neg he] at hq
        exact h q hq
    have hne := filter_name_ensure_self m "quorum"
    rcases split_last_match "quorum" (ensure_section m "quorum").children hne
      with ⟨l₁, x, l₂, hsplit, hx, hl₂, hfil⟩
    intro q hq
    rw [set_section_options_children, hsplit,
      mapNamedLast_decomp "quorum" _ _ l₁ l₂ x hx hl₂] at hq
    rw [filter_name_mapNamed_self "quorum" (fixQ _) _ (fun s => rfl)] at hq
    rcases List.mem_map.1 hq with ⟨q1, hq1, hq1e⟩
    have happ : ((apply_options [("two_node", "1")] x).name == "quorum")
        = true := by simp [hx]
    rw [List.filter_append, List.filter_cons, happ, if_pos rfl] at hq1
    rw [filter_name_mapNamed_self "quorum" _ _
      (fun s => strip_options_name _ s), hl₂] at hq1
    rcases List.mem_append.1 hq1 with h1 | h2
    · rcases List.mem_map.1 h1 with ⟨q0, hq0, hq0e⟩
      have hq0' : q0 ∈ (ensure_section m "quorum").children.filter
          (fun c => c.name == "quorum") := by
        rw [hfil]
        exact List.mem_append_left _ hq0
      rw [← hq1e, fixQ_attrs, ← hq0e, strip_options_attrs]
      rw [filter_key_stripOptList_not_mem n _ q0.attrs hkeys1]
      exact hens q0 hq0'
    · rcases List.mem_cons.1 h2 with h3 | h3
      · have hx' : x ∈ (ensure_section m "quorum").children.filter
            (fun c => c.name == "quorum") := by
          rw [hfil]
          exact List.mem_append_right _ (List.mem_singleton.2 rfl)
        rw [← hq1e, fixQ_attrs, h3, apply_options_attrs]
        rw [filter_key_applyOptList_not_mem n _ x.attrs
          (fun nv hnv => hkeys1 nv ((by rw [sortOpts_two_node] at hnv; exact hnv)))]
        exact hens x hx'
      · exact absurd h3 (List.not_mem_nil q1)
  · rw [if_neg hcond, fix_algorithms_children, Section.children_mk]
    intro q hq
    rw [filter_name_mapNamed_self "quorum" (fixQ _) _ (fun s => rfl)] at hq
    rcases List.mem_map.1 hq with ⟨q1, hq1, hq1e⟩
    rw [filter_name_mapNamed_self "quorum"
      (fun q => q.del_attributes_by_name "two_node") m.children
      (fun s => rfl)] at hq1
    rcases List.mem_map.1 hq1 with ⟨q0, hq0, hq0e⟩
    rw [← hq1e, fixQ_attrs, ← hq0e, del_attributes_attrs,
      filter_key_del_other n "two_node" hn]
    exact h q0 hq0

/-- Claim C6: after every mutating facade operation, no section with zero
attributes and zero children remains anywhere in the tree; and an option of
`set_quorum_options` whose value is the empty string is deleted from every
quorum section of the result — with its containing section, when emptied,
pruned within the same call (covered by the first conjunct). -/
theorem claim_C6_empty_sections (c : Section) :
    (∀ rp opts r, set_quorum_options rp opts c = .ok r →
      r.wellPruned = true
      ∧ ∀ n, (opts.map Prod.fst).Nodup → (n, "") ∈ opts →
          n ∈ QUORUM_OPTIONS →
          ∀ q ∈ quorum_children r, q.get_attributes_named n = [])
    ∧ (∀ rp model mo go r, add_quorum_device rp model mo go c = .ok r →
        r.wellPruned = true)
    ∧ (∀ rp mo go r, update_quorum_device rp mo go c = .ok r →
        r.wellPruned = true)
    ∧ (∀ r, remove_quorum_device c = .ok r → r.wellPruned = true) := by
  refine ⟨fun rp opts r hr => ⟨?_, ?_⟩, fun rp model mo go r hr => ?_,
    fun rp mo go r hr => ?_, fun r hr => ?_⟩
  · rw [set_quorum_options_ok rp opts c r hr]
    exact prune_wellPruned _
  · intro n hnd hmem hqo q hq
    rw [set_quorum_options_ok rp opts c r hr] at hq
    unfold quorum_children Section.get_sections_named at hq
    rw [prune_children, filter_name_pruneChildren] at hq
    have hq' := List.mem_filter.1 hq
    rcases List.mem_map.1 hq'.1 with ⟨q0, hq0, hq0e⟩
    unfold Section.get_attributes_named
    rw [← hq0e, prune_attrs]
    exact utn_keeps_absent (sqo_mutated opts c) n
      (quorum_option_ne_two_node n hqo)
      (sqo_mutated_empty_removed opts c n hnd hmem) q0 hq0
  · rw [add_quorum_device_ok rp model mo go c r hr]
    exact prune_wellPruned _
  · rw [update_quorum_device_ok rp mo go c r hr]
    exact prune_wellPruned _
  · rw [remove_quorum_device_ok c r hr]
    exact prune_wellPruned _

/-- Claim C6, witness: setting `wait_for_all` to the empty string deletes the
attribute and the emptied quorum section is pruned in the same call. -/
theorem claim_C6_witness :
    set_quorum_options (fun _ => false) [("wait_for_all", "")]
        (.mk "" [] [.mk "quorum" [("wait_for_all", "1")] []])
      = .ok (.mk "" [] [])
      ∧ (Section.mk "" [] []).wellPruned = true
      ∧ ∀ q ∈ quorum_children (.mk "" [] []),
          q.get_attributes_named "wait_for_all" = [] := by
  have h := (claim_C6_empty_sections
    (.mk "" [] [.mk "quorum" [("wait_for_all", "1")] []])).1
    (fun _ => false) [("wait_for_all", "")] (.mk "" [] []) rfl
  exact ⟨rfl, h.1, h.2 "wait_for_all" (by decide) (by decide) (by decide)⟩

/-- A configuration with two node sections, one of them empty. -/
def c1CexCfg : Section :=
  .mk "" []
    [.mk "nodelist" []
      [.mk "node" [("ring0_addr", "a")] [], .mk "node" [] []]]

/-- The result of a no-op `set_quorum_options` on `c1CexCfg`. -/
def c1CexResult : Section :=
  .mk "" []
    [.mk "nodelist" [] [.mk "node" [("ring0_addr", "a")] []],
     .mk "quorum" [("two_node", "1")] []]

/-- Claim C1, counterexample: on a configuration with two node sections one
of which is empty, a completing `set_quorum_options` call sets `two_node` to
`"1"` (the count was 2 when the invariant was re-derived) but then prunes the
empty node section, so the final tree has node count 1 with `two_node` still
present — the claimed iff fails on the final tree. -/
theorem claim_C1_counterexample :
    set_quorum_options (fun _ => false) [] c1CexCfg = .ok c1CexResult
      ∧ ¬ two_node_invariant c1CexResult := by
  refine ⟨rfl, ?_⟩
  rintro ⟨_, habs⟩
  have hc : ¬ two_node_cond c1CexResult := by decide
  have hm : (Section.mk "quorum" [("two_node", "1")] [])
      ∈ quorum_children c1CexResult := by
    rw [show quorum_children c1CexResult
        = [Section.mk "quorum" [("two_node", "1")] []] from rfl]
    exact List.mem_singleton.2 rfl
  have h3 := habs hc (Section.mk "quorum" [("two_node", "1")] []) hm
  rw [show two_node_attrs (Section.mk "quorum" [("two_node", "1")] [])
      = [("two_node", "1")] from rfl] at h3
  exact absurd h3 (by simp)

/-- A two-node configuration in which every node section has an attribute. -/
def c1WitCfg : Section :=
  .mk "" []
    [.mk "nodelist" []
      [.mk "node" [("ring0_addr", "a")] [], .mk "node" [("ring0_addr", "b")] []]]

/-- The result of a no-op `set_quorum_options` on `c1WitCfg`. -/
def c1WitResult : Section :=
  .mk "" []
    [.mk "nodelist" []
      [.mk "node" [("ring0_addr", "a")] [], .mk "node" [("ring0_addr", "b")] []],
     .mk "quorum" [("two_node", "1")] []]

/-- Claim C1, witness. -/
theorem claim_C1_witness :
    nodes_have_attrs c1WitCfg
      ∧ set_quorum_options (fun _ => false) [] c1WitCfg = .ok c1WitResult
      ∧ two_node_invariant c1WitResult :=
  ⟨by decide, rfl,
   (claim_C1_two_node_invariant c1WitCfg (by decide)).1 (fun _ => false) []
     c1WitResult rfl⟩

/-- The algorithm correction rule on one (last-occurrence) algorithm
value. -/
def alg_fix (b : Bool) (a : Option String) : Option String :=
  if a == some "lms" && b then some "2nodelms"
  else if a == some "2nodelms" && !b then some "lms"
  else a

/-- Algorithm values of the `net` children of one device, in order. -/
def dNetView (d : Section) : List (Option String) :=
  (d.children.filter (fun s => s.name == "net")).map algOf

/-- Algorithm values of all net model sections of one quorum section. -/
def qNetView (q : Section) : List (Option String) :=
  ((q.children.filter (fun s => s.name == "device")).map dNetView).flatten

/-- Algorithm values of every `net` device-model section of the
configuration, in document order. -/
def net_alg_view (c : Section) : List (Option String) :=
  ((c.children.filter (fun s => s.name == "quorum")).map qNetView).flatten

/-- Flatten commutes with map. -/
theorem map_flatten {α β : Type} (f : α → β) (L : List (List α)) :
    (L.flatten).map f = (L.map (List.map f)).flatten := by
  induction L with
  | nil => rfl
  | cons x t ih => simp [ih]

@[simp] theorem fix_algorithm_net_name (b : Bool) (nt : Section) :
    (fix_algorithm_net b nt).name = nt.name := by
  unfold fix_algorithm_net
  by_cases h1 : algOf nt == some "lms" && b
  · rw [if_pos h1]
    rfl
  · rw [if_neg h1]
    by_cases h2 : algOf nt == some "2nodelms" && !b
    · rw [if_pos h2]
      rfl
    · rw [if_neg h2]

/-- The per-section algorithm fix realizes `alg_fix` on the algorithm
view. -/
theorem algOf_fix_net (b : Bool) (nt : Section) :
    algOf (fix_algorithm_net b nt) = alg_fix b (algOf nt) := by
  unfold fix_algorithm_net alg_fix
  by_cases h1 : algOf nt == some "lms" && b
  · rw [if_pos h1, if_pos h1]
    unfold algOf Section.get_attributes_named
    rw [set_attribute_attrs, filter_key_setAttrList_self]
    rfl
  · rw [if_neg h1, if_neg h1]
    by_cases h2 : algOf nt == some "2nodelms" && !b
    · rw [if_pos h2, if_pos h2]
      unfold algOf Section.get_attributes_named
      rw [set_attribute_attrs, filter_key_setAttrList_self]
      rfl
    · rw [if_neg h2, if_neg h2]

theorem dNetView_fixD (b : Bool) (d : Section) :
    dNetView (.mk d.name d.attrs
        (mapNamed "net" (fix_algorithm_net b) d.children))
      = (dNetView d).map (alg_fix b) := by
  unfold dNetView
  rw [Section.children_mk]
  rw [filter_name_mapNamed_self "net" _ _ (fun s => fix_algorithm_net_name b s)]
  rw [List.map_map, List.map_map]
  apply List.map_congr_left
  intro nt hnt
  exact algOf_fix_net b nt

theorem qNetView_fixQ (b : Bool) (q : Section) :
    qNetView (fixQ b q) = (qNetView q).map (alg_fix b) := by
  unfold qNetView fixQ
  rw [Section.children_mk]
  rw [filter_name_mapNamed_self "device"
    (fun d => Section.mk d.name d.attrs
      (mapNamed "net" (fix_algorithm_net b) d.children))
    q.children (fun s => rfl)]
  rw [List.map_map, map_flatten, List.map_map]
  congr 1
  apply List.map_congr_left
  intro d hd
  exact dNetView_fixD b d

theorem net_alg_view_fix (b : Bool) (c : Section) :
    net_alg_view (fix_algorithms b c) = (net_alg_view c).map (alg_fix b) := by
  unfold net_alg_view
  rw [fix_algorithms_children]
  rw [filter_name_mapNamed_self "quorum" (fixQ b) _ (fun s => rfl)]
  rw [List.map_map, map_flatten, List.map_map]
  congr 1
  apply List.map_congr_left
  intro q hq
  exact qNetView_fixQ b q

@[simp] theorem qNetView_strip (o : List (String × String)) (q : Section) :
    qNetView (strip_options o q) = qNetView q := by
  unfold qNetView
  rw [strip_options_children]

@[simp] theorem qNetView_apply (o : List (String × String)) (q : Section) :
    qNetView (apply_options o q) = qNetView q := by
  unfold qNetView
  rw [apply_options_children]

@[simp] theorem qNetView_del (q : Section) (n : String) :
    qNetView (q.del_attributes_by_name n) = qNetView q := rfl

/-- Claim C5, key equation: `update_two_node` rewrites the algorithm value of
every net device-model section by the correction rule (with the node count of
its input) and leaves every other value unchanged. -/
theorem net_alg_view_utn (m : Section) :
    net_alg_view (update_two_node m)
      = (net_alg_view m).map (alg_fix ((get_nodes m).length == 2)) := by
  rw [update_two_node_eq]
  by_cases hcond : ((get_nodes m).length == 2) && !auto_tie_breaker_flag m
      && !has_quorum_device m
  · rw [if_pos hcond, net_alg_view_fix]
    congr 1
    unfold net_alg_view
    rw [set_section_options_children]
    rw [view_filter_mapNamedLast "quorum" _ _ _ qNetView
      (fun s => strip_options_name _ s) (fun s => apply_options_name _ s)
      (fun s hs hn => qNetView_strip _ s) (fun s hs hn => qNetView_apply _ s)]
    rw [ensure_section_children]
    by_cases he : (m.children.filter (fun s => s.name == "quorum")).isEmpty
    · rw [if_pos he]
      have h1 : ((Section.mk "quorum" [] []).name == "quorum") = true := by
        decide
      simp [List.filter_append, h1, qNetView]
    · rw [if_neg he]
  · rw [if_neg hcond, net_alg_view_fix]
    congr 1
    unfold net_alg_view
    rw [Section.children_mk]
    rw [view_filter_mapNamed "quorum"
      (fun q => q.del_attributes_by_name "two_node") m.children qNetView
      (fun s => rfl) (fun s hs hn => qNetView_del s _)]

/-- Generic level lemma: dropping pruned-empty sections shrinks a
per-section view to a sublist, and every entry selected by `p` survives. -/
theorem level_prune_sub {γ : Type} (V : Section → List γ) (p : γ → Bool)
    (xs : List Section)
    (hsub : ∀ x ∈ xs, (V x.prune).Sublist (V x))
    (hsome : ∀ x ∈ xs, ((V x).filter p).Sublist (V x.prune))
    (hdrop : ∀ x ∈ xs, x.prune.empty = true → (V x).filter p = []) :
    ((((xs.map Section.prune).filter (fun s => !s.empty)).map V).flatten).Sublist
        ((xs.map V).flatten)
    ∧ (((xs.map V).flatten).filter p).Sublist
        ((((xs.map Section.prune).filter (fun s => !s.empty)).map V).flatten) := by
  induction xs with
  | nil => exact ⟨List.Sublist.refl _, by simp⟩
  | cons x t ih =>
      have hx1 := hsub x (by simp)
      have hx2 := hsome x (by simp)
      obtain ⟨ih1, ih2⟩ := ih (fun y hy => hsub y (by simp [hy]))
        (fun y hy => hsome y (by simp [hy]))
        (fun y hy => hdrop y (by simp [hy]))
      by_cases he : x.prune.empty
      · have hne : (!x.prune.empty) = false := by simp [he]
        have hd := hdrop x (by simp) he
        constructor
        · simp only [List.map_cons, List.filter_cons, hne, Bool.false_eq_true,
            if_false, List.flatten_cons]
          exact ih1.trans (List.sublist_append_right _ _)
        · simp only [List.map_cons, List.flatten_cons, List.filter_append, hd,
            List.nil_append, List.filter_cons, hne, Bool.false_eq_true,
            if_false]
          exact ih2
      · have hne : (!x.prune.empty) = true := by simp [he]
        constructor
        · simp only [List.map_cons, List.filter_cons, hne, if_true,
            List.flatten_cons]
          exact List.Sublist.append hx1 ih1
        · simp only [List.map_cons, List.flatten_cons, List.filter_append,
            List.filter_cons, hne, if_true]
          exact List.Sublist.append hx2 ih2

/-- Pruning a net section does not change its algorithm value. -/
theorem algOf_prune (nt : Section) : algOf nt.prune = algOf nt := by
  unfold algOf Section.get_attributes_named
  rw [prune_attrs]

/-- A net section whose pruned form is empty has no algorithm value. -/
theorem algOf_none_of_prune_empty (nt : Section) (h : nt.prune.empty = true) :
    algOf nt = none := by
  unfold algOf Section.get_attributes_named
  rw [attrs_of_prune_empty nt h]
  rfl

/-- Bridge between a map and a flatten of singletons. -/
theorem flatten_map_singleton {α β : Type} (f : α → β) (l : List α) :
    (l.map (fun a => [f a])).flatten = l.map f := by
  induction l with
  | nil => rfl
  | cons a t ih => simp [ih]

theorem dNetView_prune_sub (d : Section) :
    (dNetView d.prune).Sublist (dNetView d)
    ∧ ((dNetView d).filter Option.isSome).Sublist (dNetView d.prune) := by
  unfold dNetView
  rw [prune_children, filter_name_pruneChildren]
  obtain ⟨h1, h2⟩ := level_prune_sub (fun nt => [algOf nt]) Option.isSome
    (d.children.filter (fun s => s.name == "net"))
    (fun nt _ => by
      show ([algOf nt.prune]).Sublist [algOf nt]
      rw [algOf_prune])
    (fun nt _ => by
      show ([algOf nt].filter Option.isSome).Sublist [algOf nt.prune]
      rw [algOf_prune]
      exact List.filter_sublist _)
    (fun nt _ he => by
      show [algOf nt].filter Option.isSome = []
      rw [algOf_none_of_prune_empty nt he]
      rfl)
  rw [flatten_map_singleton, flatten_map_singleton] at h1
  rw [flatten_map_singleton, flatten_map_singleton] at h2
  exact ⟨h1, h2⟩

/-- A device whose pruned form is empty has no net sections left. -/
theorem dNetView_prune_empty (d : Section) (h : d.prune.empty = true) :
    dNetView d.prune = [] := by
  unfold dNetView
  rw [prune_children, pruneChildren_of_prune_empty d h]
  rfl

theorem qNetView_prune_sub (q : Section) :
    (qNetView q.prune).Sublist (qNetView q)
    ∧ ((qNetView q).filter Option.isSome).Sublist (qNetView q.prune) := by
  unfold qNetView
  rw [prune_children, filter_name_pruneChildren]
  exact level_prune_sub dNetView Option.isSome
    (q.children.filter (fun s => s.name == "device"))
    (fun d _ => (dNetView_prune_sub d).1)
    (fun d _ => (dNetView_prune_sub d).2)
    (fun d _ he => by
      have h2 := (dNetView_prune_sub d).2
      rw [dNetView_prune_empty d he] at h2
      exact List.sublist_nil.1 h2)

/-- A quorum whose pruned form is empty has no net model sections left. -/
theorem qNetView_prune_empty (q : Section) (h : q.prune.empty = true) :
    qNetView q.prune = [] := by
  unfold qNetView
  rw [prune_children, pruneChildren_of_prune_empty q h]
  rfl

theorem net_alg_view_prune_sub (t : Section) :
    (net_alg_view t.prune).Sublist (net_alg_view t)
    ∧ ((net_alg_view t).filter Option.isSome).Sublist
        (net_alg_view t.prune) := by
  unfold net_alg_view
  rw [prune_children, filter_name_pruneChildren]
  exact level_prune_sub qNetView Option.isSome
    (t.children.filter (fun s => s.name == "quorum"))
    (fun q _ => (qNetView_prune_sub q).1)
    (fun q _ => (qNetView_prune_sub q).2)
    (fun q _ he => by
      have h2 := (qNetView_prune_sub q).2
      rw [qNetView_prune_empty q he] at h2
      exact List.sublist_nil.1 h2)

/-- Claim C5: every mutating facade operation factors as its mutation
followed by `update_two_node` and pruning; `update_two_node` rewrites the
algorithm value of every net device-model section by exactly the claimed
rule — `lms` with node count 2 becomes `2nodelms`, `2nodelms` with node
count ≠ 2 becomes `lms`, anything else is unchanged — and pruning afterwards
only drops net sections, never changing a rewritten (present) algorithm
value. -/
theorem claim_C5_algorithm_correction :
    (∀ m : Section, net_alg_view (update_two_node m)
        = (net_alg_view m).map (alg_fix ((get_nodes m).length == 2)))
    ∧ (∀ t : Section, (net_alg_view t.prune).Sublist (net_alg_view t)
        ∧ ((net_alg_view t).filter Option.isSome).Sublist
            (net_alg_view t.prune))
    ∧ (∀ rp opts c r, set_quorum_options rp opts c = .ok r →
        r = Section.prune (update_two_node (sqo_mutated opts c)))
    ∧ (∀ rp model mo go c r, add_quorum_device rp model mo go c = .ok r →
        r = Section.prune (update_two_node (add_mutated model mo go c)))
    ∧ (∀ rp mo go c r, update_quorum_device rp mo go c = .ok r →
        r = Section.prune (update_two_node
          (upd_mutated (current_model c) mo go c)))
    ∧ (∀ c r, remove_quorum_device c = .ok r →
        r = Section.prune (update_two_node (delete_devices c))) :=
  ⟨net_alg_view_utn, net_alg_view_prune_sub, set_quorum_options_ok,
   add_quorum_device_ok, update_quorum_device_ok, remove_quorum_device_ok⟩

/-- A two-node configuration with a net quorum device using `lms`. -/
def c5WitCfg : Section :=
  .mk "" []
    [.mk "quorum" []
      [.mk "device" [("model", "net")]
        [.mk "net" [("algorithm", "lms"), ("host", "h")] []]],
     .mk "nodelist" []
      [.mk "node" [("ring0_addr", "a")] [], .mk "node" [("ring0_addr", "b")] []]]

/-- The result of a no-op `set_quorum_options` on `c5WitCfg`: the algorithm
was rewritten to `2nodelms`. -/
def c5WitResult : Section :=
  .mk "" []
    [.mk "quorum" []
      [.mk "device" [("model", "net")]
        [.mk "net" [("algorithm", "2nodelms"), ("host", "h")] []]],
     .mk "nodelist" []
      [.mk "node" [("ring0_addr", "a")] [], .mk "node" [("ring0_addr", "b")] []]]

/-- Claim C5, witness. -/
theorem claim_C5_witness :
    set_quorum_options (fun _ => false) [] c5WitCfg = .ok c5WitResult
      ∧ c5WitResult
          = Section.prune (update_two_node (sqo_mutated [] c5WitCfg))
      ∧ net_alg_view c5WitCfg = [some "lms"]
      ∧ net_alg_view c5WitResult = [some "2nodelms"] :=
  ⟨rfl,
   claim_C5_algorithm_correction.2.2.1 (fun _ => false) [] c5WitCfg
     c5WitResult rfl,
   rfl, rfl⟩

@[simp] theorem Section.eta (s : Section) :
    Section.mk s.name s.attrs s.children = s := by cases s; rfl

/-- Injectivity of appending a singleton. -/
theorem append_singleton_inj {α : Type} {a b : List α} {x y : α}
    (h : a ++ [x] = b ++ [y]) : a = b ∧ x = y := by
  have hlen : a.length = b.length := by
    have := congrArg List.length h
    simp at this
    exact this
  obtain ⟨h1, h2⟩ := List.append_inj h hlen
  exact ⟨h1, by injection h2⟩

/-- A map ending in a singleton comes from a list ending in a singleton. -/
theorem map_eq_append_singleton {α β : Type} (f : α → β) (l : List α)
    (ys : List β) (z : β) (h : l.map f = ys ++ [z]) :
    ∃ l₁ x, l = l₁ ++ [x] ∧ l₁.map f = ys ∧ f x = z := by
  have hne : l ≠ [] := by
    intro hl
    rw [hl] at h
    exact absurd h.symm (by simp)
  refine ⟨l.dropLast, l.getLast hne, (List.dropLast_append_getLast hne).symm,
    ?_, ?_⟩
  · have h2 : l.map f = l.dropLast.map f ++ [f (l.getLast hne)] := by
      conv_lhs => rw [← List.dropLast_append_getLast hne]
      simp
    rw [h2] at h
    exact (append_singleton_inj h).1
  · have h2 : l.map f = l.dropLast.map f ++ [f (l.getLast hne)] := by
      conv_lhs => rw [← List.dropLast_append_getLast hne]
      simp
    rw [h2] at h
    exact (append_singleton_inj h).2

/-- Stripping names that are all absent is the identity. -/
theorem stripOptList_eq_self (o : List (String × String))
    (a : List (String × String))
    (h : ∀ nv ∈ o, a.filter (fun b => b.1 == nv.1) = []) :
    stripOptList o a = a := by
  induction o with
  | nil => rfl
  | cons nv t ih =>
      rw [stripOptList_cons, filter_del_eq_self nv.1 a (h nv (by simp))]
      exact ih (fun x hx => h x (by simp [hx]))

/-- Applying options that are all already exactly in place is the
identity. -/
theorem applyOptList_eq_self (l : List (String × String))
    (a : List (String × String))
    (h : ∀ nv ∈ l, nv.2 ≠ "" ∧ a.filter (fun b => b.1 == nv.1) = [(nv.1, nv.2)]) :
    applyOptList l a = a := by
  induction l with
  | nil => rfl
  | cons nv t ih =>
      obtain ⟨hv, hf⟩ := h nv (by simp)
      rw [applyOptList_cons, if_neg (by simpa using hv),
        setAttrList_eq_self nv.1 nv.2 a hf]
      exact ih (fun x hx => h x (by simp [hx]))

/-- Section-level identity of stripping absent names. -/
theorem strip_options_id (o : List (String × String)) (s : Section)
    (h : ∀ nv ∈ o, s.attrs.filter (fun b => b.1 == nv.1) = []) :
    strip_options o s = s := by
  rw [strip_options_eq, stripOptList_eq_self o s.attrs h, Section.eta]

/-- Section-level identity of applying options already in place. -/
theorem apply_options_id (o : List (String × String)) (s : Section)
    (h : ∀ nv ∈ sortOpts o, nv.2 ≠ ""
      ∧ s.attrs.filter (fun b => b.1 == nv.1) = [(nv.1, nv.2)]) :
    apply_options o s = s := by
  rw [apply_options_eq, applyOptList_eq_self (sortOpts o) s.attrs h,
    Section.eta]

/-- `mapNamedLast` with identity functions is the identity. -/
theorem mapNamedLast_id_funs (nm : String) (f g : Section → Section)
    (l : List Section) (hf : ∀ s, f s = s) (hg : ∀ s, g s = s) :
    mapNamedLast nm f g l = l := by
  induction l with
  | nil => rfl
  | cons c t ih =>
      by_cases hc : (c.name == nm) = true
      · simp only [mapNamedLast, hc, if_true, hf, hg, ih]
        by_cases he : ((t.filter (fun x => x.name == nm)).isEmpty) = true <;>
          simp [he]
      · have hc' : (c.name == nm) = false := by
          cases hh : (c.name == nm)
          · rfl
          · exact absurd hh hc
        simp only [mapNamedLast, hc', Bool.false_eq_true, if_false, ih]

/-- `set_section_options` with no options is the identity. -/
theorem sso_empty_opts (nm : String) (c : Section) :
    set_section_options nm [] c = c := by
  unfold set_section_options
  rw [mapNamedLast_id_funs nm (strip_options []) (apply_options [])
    c.children (fun s => rfl) (fun s => rfl), Section.eta]

/-- `ensure_section` is the identity when a section of the name exists. -/
theorem ensure_id (c : Section) (nm : String)
    (h : c.children.filter (fun s => s.name == nm) ≠ []) :
    ensure_section c nm = c := by
  unfold ensure_section
  rw [if_neg]
  intro he
  exact h (List.isEmpty_iff.1 (by
    unfold Section.get_sections_named at he
    exact he))

theorem mapNamed_append (nm : String) (f : Section → Section)
    (l₁ l₂ : List Section) :
    mapNamed nm f (l₁ ++ l₂) = mapNamed nm f l₁ ++ mapNamed nm f l₂ := by
  unfold mapNamed
  rw [List.map_append]

theorem mapNamed_cons (nm : String) (f : Section → Section) (c : Section)
    (l : List Section) :
    mapNamed nm f (c :: l)
      = (if c.name == nm then f c else c) :: mapNamed nm f l := rfl

/-- A `net` section is algorithm-stable for node flag `b` when neither fix
condition of `__update_two_node` applies to it. -/
def netStableConds (b : Bool) (nt : Section) : Prop :=
  ((algOf nt == some "lms") && b) = false
  ∧ ((algOf nt == some "2nodelms") && !b) = false

theorem fix_net_id_of_stable (b : Bool) (nt : Section)
    (h : netStableConds b nt) : fix_algorithm_net b nt = nt := by
  unfold fix_algorithm_net
  rw [if_neg (by simp [h.1]), if_neg (by simp [h.2])]

/-- The algorithm fix always produces a stable `net` section. -/
theorem netStable_after_fix (b : Bool) (nt : Section) :
    netStableConds b (fix_algorithm_net b nt) := by
  have halg := algOf_fix_net b nt
  unfold netStableConds
  rw [halg]
  unfold alg_fix
  by_cases h1 : ((algOf nt == some "lms") && b) = true
  · rw [if_pos h1]
    have hb : b = true := by
      have h1' := h1
      rw [Bool.and_eq_true] at h1'
      exact h1'.2
    subst hb
    exact ⟨by decide, by decide⟩
  · rw [if_neg h1]
    by_cases h2 : ((algOf nt == some "2nodelms") && !b) = true
    · rw [if_pos h2]
      have hb' : (!b) = true := by
        have h2' := h2
        rw [Bool.and_eq_true] at h2'
        exact h2'.2
      have hb : b = false := by
        cases b with
        | false => rfl
        | true => exact absurd hb' (by decide)
      subst hb
      exact ⟨by decide, by decide⟩
    · rw [if_neg h2]
      constructor
      · cases hh : ((algOf nt == some "lms") && b) with
        | false => rfl
        | true => exact absurd hh h1
      · cases hh : ((algOf nt == some "2nodelms") && !b) with
        | false => rfl
        | true => exact absurd hh h2

theorem netStable_prune (b : Bool) (nt : Section) (h : netStableConds b nt) :
    netStableConds b nt.prune := by
  unfold netStableConds
  rw [algOf_prune]
  exact h

/-- Every `net` grandchild of every quorum device of the root is
algorithm-stable. -/
def netsStable (b : Bool) (t : Section) : Prop :=
  ∀ q ∈ t.children.filter (fun s => s.name == "quorum"),
    ∀ d ∈ q.children.filter (fun s => s.name == "device"),
      ∀ nt ∈ d.children.filter (fun s => s.name == "net"),
        netStableConds b nt

/-- The output of the algorithm-fix phase is stable. -/
theorem netsStable_fix (b : Bool) (t : Section) :
    netsStable b (fix_algorithms b t) := by
  intro q hq d hd nt hnt
  rw [fix_algorithms_children,
    filter_name_mapNamed_self "quorum" (fixQ b) _ (fun s => rfl)] at hq
  rcases List.mem_map.1 hq with ⟨q0, hq0, hq0e⟩
  rw [← hq0e] at hd
  have hfq : (fixQ b q0).children
      = mapNamed "device"
          (fun d => Section.mk d.name d.attrs
            (mapNamed "net" (fix_algorithm_net b) d.children))
          q0.children := rfl
  rw [hfq, filter_name_mapNamed_self "device"
    (fun d => Section.mk d.name d.attrs
      (mapNamed "net" (fix_algorithm_net b) d.children))
    q0.children (fun s => rfl)] at hd
  rcases List.mem_map.1 hd with ⟨d0, hd0, hd0e⟩
  rw [← hd0e, Section.children_mk,
    filter_name_mapNamed_self "net" _ _
      (fun s => fix_algorithm_net_name b s)] at hnt
  rcases List.mem_map.1 hnt with ⟨n0, hn0, hn0e⟩
  rw [← hn0e]
  exact netStable_after_fix b n0

/-- Stability survives pruning. -/
theorem netsStable_prune (b : Bool) (t : Section) (h : netsStable b t) :
    netsStable b t.prune := by
  intro q hq d hd nt hnt
  rw [prune_children, filter_name_pruneChildren] at hq
  have hq' := List.mem_filter.1 hq
  rcases List.mem_map.1 hq'.1 with ⟨q0, hq0, hq0e⟩
  rw [← hq0e, prune_children, filter_name_pruneChildren] at hd
  have hd' := List.mem_filter.1 hd
  rcases List.mem_map.1 hd'.1 with ⟨d0, hd0, hd0e⟩
  rw [← hd0e, prune_children, filter_name_pruneChildren] at hnt
  have hnt' := List.mem_filter.1 hnt
  rcases List.mem_map.1 hnt'.1 with ⟨n0, hn0, hn0e⟩
  rw [← hn0e]
  exact netStable_prune b n0 (h q0 hq0 d0 hd0 n0 hn0)

/-- On a stable tree the algorithm-fix phase is the identity. -/
theorem fix_algorithms_id (b : Bool) (t : Section) (h : netsStable b t) :
    fix_algorithms b t = t := by
  have hmain : mapNamed "quorum"
      (fun q => Section.mk q.name q.attrs
        (mapNamed "device"
          (fun d => Section.mk d.name d.attrs
            (mapNamed "net" (fix_algorithm_net b) d.children))
          q.children))
      t.children = t.children := by
    apply mapNamed_id
    intro q hq hqname
    have hdev : mapNamed "device"
        (fun d => Section.mk d.name d.attrs
          (mapNamed "net" (fix_algorithm_net b) d.children))
        q.children = q.children := by
      apply mapNamed_id
      intro d hd hdname
      have hnet : mapNamed "net" (fix_algorithm_net b) d.children
          = d.children := by
        apply mapNamed_id
        intro nt hnt hntname
        exact fix_net_id_of_stable b nt
          (h q (List.mem_filter.2 ⟨hq, by simp [hqname]⟩)
             d (List.mem_filter.2 ⟨hd, by simp [hdname]⟩)
             nt (List.mem_filter.2 ⟨hnt, by simp [hntname]⟩))
      rw [hnet, Section.eta]
    rw [hdev, Section.eta]
  unfold fix_algorithms
  rw [hmain, Section.eta]

/-- The boolean two-node condition read at the start of
`__update_two_node`. -/
def condBool (c : Section) : Bool :=
  ((get_nodes c).length == 2) && !auto_tie_breaker_flag c
    && !has_quorum_device c

/-- `update_two_node_eq` restated through `condBool`. -/
theorem update_two_node_eq_cond (c : Section) :
    update_two_node c
      = fix_algorithms ((get_nodes c).length == 2)
          (if condBool c then
             set_section_options "quorum" [("two_node", "1")]
               (ensure_section c "quorum")
           else .mk c.name c.attrs
             (mapNamed "quorum" (fun q => q.del_attributes_by_name "two_node")
               c.children)) := rfl

/-- The two-node condition is unchanged by the re-derivation and pruning, as
long as node sections keep attributes. -/
theorem condBool_prune_utn (m : Section) (h : nodes_have_attrs m) :
    condBool (update_two_node m).prune = condBool m := by
  have hnu : nodes_have_attrs (update_two_node m) :=
    (nodes_have_attrs_update_two_node m).2 h
  unfold condBool
  rw [get_nodes_prune _ hnu, get_nodes_update_two_node]
  have hatb : auto_tie_breaker_flag (update_two_node m).prune
      = auto_tie_breaker_flag m := by
    unfold auto_tie_breaker_flag
    rw [atb_list_prune, atb_list_update_two_node]
  rw [hatb, has_quorum_device_prune, has_quorum_device_update_two_node]

/-- The node-count flag is unchanged by the re-derivation and pruning. -/
theorem twoN_prune_utn (m : Section) (h : nodes_have_attrs m) :
    ((get_nodes (update_two_node m).prune).length == 2)
      = ((get_nodes m).length == 2) := by
  rw [get_nodes_prune _ ((nodes_have_attrs_update_two_node m).2 h),
    get_nodes_update_two_node]

/-- Transport of a per-quorum-section view through `__update_two_node`, when
a quorum section already exists (so nothing is appended). -/
theorem utn_quorum_view {γ : Type} (m : Section) (view : Section → γ)
    (hq : m.children.filter (fun s => s.name == "quorum") ≠ [])
    (hdel : ∀ s, view (s.del_attributes_by_name "two_node") = view s)
    (hstrip : ∀ s, view (strip_options [("two_node", "1")] s) = view s)
    (happ : ∀ s, view (apply_options [("two_node", "1")] s) = view s)
    (hfix : ∀ s, view (fixQ ((get_nodes m).length == 2) s) = view s) :
    ((update_two_node m).children.filter
        (fun s => s.name == "quorum")).map view
      = (m.children.filter (fun s => s.name == "quorum")).map view := by
  rw [update_two_node_eq]
  by_cases hcond : (((get_nodes m).length == 2) && !auto_tie_breaker_flag m
      && !has_quorum_device m) = true
  · rw [if_pos hcond, ensure_id m "quorum" hq, fix_algorithms_children]
    rw [view_filter_mapNamed "quorum" (fixQ _) _ view (fun s => rfl)
      (fun s _ _ => hfix s)]
    rw [set_section_options_children]
    exact view_filter_mapNamedLast "quorum" (strip_options [("two_node", "1")])
      (apply_options [("two_node", "1")]) m.children view
      (fun s => strip_options_name _ s) (fun s => apply_options_name _ s)
      (fun s _ _ => hstrip s) (fun s _ _ => happ s)
  · rw [if_neg hcond, fix_algorithms_children, Section.children_mk]
    rw [view_filter_mapNamed "quorum" (fixQ _) _ view (fun s => rfl)
      (fun s _ _ => hfix s)]
    exact view_filter_mapNamed "quorum"
      (fun q => q.del_attributes_by_name "two_node") m.children view
      (fun s => rfl) (fun s _ _ => hdel s)

/-- Structure of the tree mutated by `set_quorum_options`: the children split
at the last quorum section, which carries exactly the nonempty submitted
options, while earlier quorum sections carry none of the submitted names. -/
theorem sqo_m1_split (opts : List (String × String)) (c : Section)
    (hnd : (opts.map Prod.fst).Nodup) :
    ∃ L₁ x L₂,
      (sqo_mutated opts c).children = L₁ ++ x :: L₂
      ∧ x.name = "quorum"
      ∧ L₂.filter (fun s => s.name == "quorum") = []
      ∧ (sqo_mutated opts c).children.filter (fun s => s.name == "quorum")
          = L₁.filter (fun s => s.name == "quorum") ++ [x]
      ∧ (∀ n v, (n, v) ∈ opts → v ≠ "" →
          x.attrs.filter (fun b => b.1 == n) = [(n, v)])
      ∧ (∀ y ∈ L₁.filter (fun s => s.name == "quorum"), ∀ n v, (n, v) ∈ opts →
          y.attrs.filter (fun b => b.1 == n) = []) := by
  have hne := filter_name_ensure_self c "quorum"
  rcases split_last_match "quorum" (ensure_section c "quorum").children hne
    with ⟨l₁, x0, l₂, hsplit, hx, hl₂, _⟩
  have hch : (sqo_mutated opts c).children
      = mapNamed "quorum" (strip_options opts) l₁
        ++ apply_options opts x0 :: l₂ := by
    unfold sqo_mutated
    rw [set_section_options_children, hsplit,
      mapNamedLast_decomp "quorum" _ _ l₁ l₂ x0 hx hl₂]
  refine ⟨mapNamed "quorum" (strip_options opts) l₁, apply_options opts x0,
    l₂, hch, by simp [hx], hl₂, ?_, ?_, ?_⟩
  · rw [hch, List.filter_append, List.filter_cons]
    have h1 : ((apply_options opts x0).name == "quorum") = true := by
      simp [hx]
    simp only [h1, if_true]
    rw [hl₂]
  · intro n v hmem hv
    rw [apply_options_attrs]
    exact filter_key_applyOptList_set n v _ x0.attrs
      (sortOpts_nodup_keys opts hnd) ((mem_sortOpts _ _).2 hmem) hv
  · intro y hy n v hmem
    rw [filter_name_mapNamed_self "quorum" (strip_options opts) l₁
      (fun s => strip_options_name opts s)] at hy
    rcases List.mem_map.1 hy with ⟨y0, _, hy0e⟩
    rw [← hy0e, strip_options_attrs]
    exact filter_key_stripOptList_mem n opts y0.attrs ⟨(n, v), hmem, rfl⟩

/-- State of the quorum sections after `__update_two_node` on the
`set_quorum_options` mutation: the filtered quorum list ends in a
distinguished section carrying exactly the (nonempty-valued) submitted
options, the earlier quorum sections carrying none of the submitted names;
the `two_node` attribute follows the condition. -/
theorem sqo_u1_state (opts : List (String × String)) (c : Section)
    (hnd : (opts.map Prod.fst).Nodup)
    (hkeys : ∀ nv ∈ opts, nv.1 ∈ QUORUM_OPTIONS)
    (hvals : ∀ nv ∈ opts, nv.2 ≠ "")
    (hopts : opts ≠ []) :
    ∃ pre x,
      (update_two_node (sqo_mutated opts c)).children.filter
          (fun s => s.name == "quorum") = pre ++ [x]
      ∧ (∀ n v, (n, v) ∈ opts → x.attrs.filter (fun b => b.1 == n) = [(n, v)])
      ∧ (∀ y ∈ pre, ∀ n v, (n, v) ∈ opts →
          y.attrs.filter (fun b => b.1 == n) = [])
      ∧ (x.attrs.filter (fun b => b.1 == "two_node")
          = if condBool (sqo_mutated opts c) then [("two_node", "1")] else [])
      ∧ (∀ y ∈ pre, y.attrs.filter (fun b => b.1 == "two_node") = []) := by
  rcases sqo_m1_split opts c hnd with ⟨L₁, x0, L₂, _, _, _, hfilm, hxf, hpref⟩
  have hqne : (sqo_mutated opts c).children.filter
      (fun s => s.name == "quorum") ≠ [] := by
    rw [hfilm]
    simp
  have hview : ∀ n : String, n ∈ QUORUM_OPTIONS →
      ((update_two_node (sqo_mutated opts c)).children.filter
          (fun s => s.name == "quorum")).map
        (fun s => s.attrs.filter (fun b => b.1 == n))
      = ((sqo_mutated opts c).children.filter
          (fun s => s.name == "quorum")).map
        (fun s => s.attrs.filter (fun b => b.1 == n)) := by
    intro n hn
    have hntn : n ≠ "two_node" := quorum_option_ne_two_node n hn
    refine utn_quorum_view (sqo_mutated opts c)
      (fun s => s.attrs.filter (fun b => b.1 == n)) hqne ?_ ?_ ?_ ?_
    · intro s
      show ((s.del_attributes_by_name "two_node").attrs.filter
        (fun b => b.1 == n)) = s.attrs.filter (fun b => b.1 == n)
      rw [del_attributes_attrs]
      exact filter_key_del_other n "two_node" hntn s.attrs
    · intro s
      show ((strip_options [("two_node", "1")] s).attrs.filter
        (fun b => b.1 == n)) = s.attrs.filter (fun b => b.1 == n)
      rw [strip_options_attrs]
      refine filter_key_stripOptList_not_mem n _ s.attrs ?_
      intro nv hnv
      have he : nv = ("two_node", "1") := List.mem_singleton.1 hnv
      rw [he]
      exact fun hx => hntn hx.symm
    · intro s
      show ((apply_options [("two_node", "1")] s).attrs.filter
        (fun b => b.1 == n)) = s.attrs.filter (fun b => b.1 == n)
      rw [apply_options_attrs, sortOpts_two_node]
      refine filter_key_applyOptList_not_mem n _ s.attrs ?_
      intro nv hnv
      have he : nv = ("two_node", "1") := List.mem_singleton.1 hnv
      rw [he]
      exact fun hx => hntn hx.symm
    · intro s
      rfl
  rcases List.exists_mem_of_ne_nil opts hopts with ⟨nv0, hnv0⟩
  have h0 := hview nv0.1 (hkeys nv0 hnv0)
  rw [hfilm, List.map_append, List.map_cons, List.map_nil] at h0
  rcases map_eq_append_singleton _ _ _ _ h0 with ⟨preU, xU, hdecomp, _, _⟩
  have hperkey : ∀ n v, (n, v) ∈ opts →
      xU.attrs.filter (fun b => b.1 == n) = [(n, v)]
      ∧ ∀ y ∈ preU, y.attrs.filter (fun b => b.1 == n) = [] := by
    intro n v hmem
    have hv := hview n (hkeys (n, v) hmem)
    rw [hfilm, hdecomp, List.map_append, List.map_append, List.map_cons,
      List.map_cons, List.map_nil] at hv
    rcases append_singleton_inj hv with ⟨hpre, hlast⟩
    constructor
    · rw [hlast]
      exact hxf n v hmem (hvals (n, v) hmem)
    · intro y hy
      have hym : y.attrs.filter (fun b => b.1 == n)
          ∈ (L₁.filter (fun s => s.name == "quorum")).map
            (fun s => s.attrs.filter (fun b => b.1 == n)) := by
        rw [← hpre]
        exact List.mem_map_of_mem _ hy
      rcases List.mem_map.1 hym with ⟨y0, hy0, hy0e⟩
      rw [← hy0e]
      exact hpref y0 hy0 n v hmem
  refine ⟨preU, xU, hdecomp, fun n v hm => (hperkey n v hm).1,
    fun y hy n v hm => (hperkey n v hm).2 y hy, ?_, ?_⟩
  · by_cases hc : condBool (sqo_mutated opts c) = true
    · rw [if_pos hc]
      rcases utn_two_node_set (sqo_mutated opts c) hc
        with ⟨pre1, x1, hfil1, hx1, _⟩
      rw [hdecomp] at hfil1
      rcases append_singleton_inj hfil1 with ⟨_, hxeq⟩
      rw [hxeq]
      exact hx1
    · have hc' : condBool (sqo_mutated opts c) = false := by
        cases hh : condBool (sqo_mutated opts c) with
        | false => rfl
        | true => exact absurd hh hc
      rw [hc']
      simp only [Bool.false_eq_true, if_false]
      exact utn_two_node_absent (sqo_mutated opts c) hc' xU
        (by rw [hdecomp]; simp)
  · intro y hy
    by_cases hc : condBool (sqo_mutated opts c) = true
    · rcases utn_two_node_set (sqo_mutated opts c) hc
        with ⟨pre1, x1, hfil1, _, hpre1⟩
      rw [hdecomp] at hfil1
      rcases append_singleton_inj hfil1 with ⟨hpeq, _⟩
      exact hpre1 y (by rw [← hpeq]; exact hy)
    · have hc' : condBool (sqo_mutated opts c) = false := by
        cases hh : condBool (sqo_mutated opts c) with
        | false => rfl
        | true => exact absurd hh hc
      exact utn_two_node_absent (sqo_mutated opts c) hc' y
        (by rw [hdecomp]; exact List.mem_append_left _ hy)

/-- State of the quorum sections on the completed `set_quorum_options`
result: last quorum section holds exactly the submitted options, earlier ones
hold none of the submitted names. -/
theorem sqo_r_state (opts : List (String × String)) (c : Section)
    (hnd : (opts.map Prod.fst).Nodup)
    (hkeys : ∀ nv ∈ opts, nv.1 ∈ QUORUM_OPTIONS)
    (hvals : ∀ nv ∈ opts, nv.2 ≠ "")
    (hopts : opts ≠ []) :
    ∃ pre x,
      (Section.prune (update_two_node (sqo_mutated opts c))).children.filter
          (fun s => s.name == "quorum") = pre ++ [x]
      ∧ (∀ n v, (n, v) ∈ opts → x.attrs.filter (fun b => b.1 == n) = [(n, v)])
      ∧ (∀ y ∈ pre, ∀ n v, (n, v) ∈ opts →
          y.attrs.filter (fun b => b.1 == n) = []) := by
  rcases sqo_u1_state opts c hnd hkeys hvals hopts
    with ⟨preU, xU, hdecomp, hx, hpre, _, _⟩
  rcases List.exists_mem_of_ne_nil opts hopts with ⟨nv0, hnv0⟩
  have hxne : xU.attrs ≠ [] := by
    intro hnil
    have := hx nv0.1 nv0.2 (by rwa [Prod.mk.eta])
    rw [hnil] at this
    exact absurd this (by simp)
  have hkeep : (!xU.prune.empty) = true := by
    rw [prune_not_empty_of_attrs xU hxne]
    rfl
  refine ⟨((preU.map Section.prune).filter (fun s => !s.empty)), xU.prune,
    ?_, ?_, ?_⟩
  · rw [prune_children, filter_name_pruneChildren, hdecomp, List.map_append,
      List.filter_append]
    simp only [List.map_cons, List.map_nil, List.filter_cons, hkeep, if_true,
      List.filter_nil]
  · intro n v hm
    rw [prune_attrs]
    exact hx n v hm
  · intro y hy n v hm
    have hy' := List.mem_filter.1 hy
    rcases List.mem_map.1 hy'.1 with ⟨y0, hy0, hy0e⟩
    rw [← hy0e, prune_attrs]
    exact hpre y0 hy0 n v hm

/-- `__set_section_options` is the identity when the options already are
exactly in place on the last target section and absent from the others. -/
theorem sso_id_of_state (opts : List (String × String)) (r : Section)
    (hvals : ∀ nv ∈ opts, nv.2 ≠ "") (pre : List Section) (x : Section)
    (hfil : r.children.filter (fun s => s.name == "quorum") = pre ++ [x])
    (hx : ∀ n v, (n, v) ∈ opts → x.attrs.filter (fun b => b.1 == n) = [(n, v)])
    (hpre : ∀ y ∈ pre, ∀ n v, (n, v) ∈ opts →
      y.attrs.filter (fun b => b.1 == n) = []) :
    set_section_options "quorum" opts r = r := by
  have hne : r.children.filter (fun s => s.name == "quorum") ≠ [] := by
    rw [hfil]
    simp
  rcases split_last_match "quorum" r.children hne
    with ⟨m₁, z, m₂, hsplit, hz, hm₂, hfil2⟩
  rw [hfil] at hfil2
  rcases append_singleton_inj hfil2 with ⟨hpreeq, hzeq⟩
  have hmain : mapNamedLast "quorum" (strip_options opts)
      (apply_options opts) r.children = r.children := by
    rw [hsplit, mapNamedLast_decomp "quorum" _ _ m₁ m₂ z hz hm₂]
    have hmap : mapNamed "quorum" (strip_options opts) m₁ = m₁ := by
      apply mapNamed_id
      intro s hs hn
      apply strip_options_id
      intro nv hnv
      have hsm : s ∈ pre := by
        rw [hpreeq]
        exact List.mem_filter.2 ⟨hs, by simp [hn]⟩
      exact hpre s hsm nv.1 nv.2 (by rwa [Prod.mk.eta])
    have happ : apply_options opts z = z := by
      apply apply_options_id
      intro nv hnv
      have hmem : nv ∈ opts := (mem_sortOpts nv opts).1 hnv
      refine ⟨hvals nv hmem, ?_⟩
      rw [← hzeq]
      exact hx nv.1 nv.2 (by rwa [Prod.mk.eta])
    rw [hmap, happ]
  unfold set_section_options
  rw [hmain, Section.eta]

/-- Re-setting `two_node = "1"` is the identity when it is already set per
the invariant. -/
theorem sso_tn_id_of_set_prop (r : Section) (h : two_node_set_prop r) :
    set_section_options "quorum" [("two_node", "1")] r = r := by
  rcases h with ⟨pre, q, hfil, hq, hpre⟩
  refine sso_id_of_state [("two_node", "1")] r (by decide) pre q hfil ?_ ?_
  · intro n v hm
    have he : (n, v) = ("two_node", "1") := List.mem_singleton.1 hm
    injection he with he1 he2
    subst he1
    subst he2
    exact hq
  · intro y hy n v hm
    have he : (n, v) = ("two_node", "1") := List.mem_singleton.1 hm
    injection he with he1 he2
    subst he1
    exact hpre y hy

/-- Deleting `two_node` everywhere is the identity when it is absent per the
invariant. -/
theorem del_tn_id_of_absent (r : Section) (h : two_node_absent_prop r) :
    Section.mk r.name r.attrs
      (mapNamed "quorum" (fun q => q.del_attributes_by_name "two_node")
        r.children) = r := by
  have hmap : mapNamed "quorum"
      (fun q => q.del_attributes_by_name "two_node") r.children
      = r.children := by
    apply mapNamed_id
    intro s hs hn
    have hmem : s ∈ quorum_children r :=
      List.mem_filter.2 ⟨hs, by simp [hn]⟩
    have habs := h s hmem
    unfold Section.del_attributes_by_name
    rw [filter_del_eq_self "two_node" s.attrs habs, Section.eta]
  rw [hmap, Section.eta]

/-- A full second `set_quorum_options` pipeline is the identity, given the
state facts established by a completed first run (quorum list nonempty
case). -/
theorem sqo_pipeline_id (opts : List (String × String)) (r : Section)
    (hrq : r.children.filter (fun s => s.name == "quorum") ≠ [])
    (hsso : set_section_options "quorum" opts r = r)
    (hinv : two_node_invariant r)
    (hstable : netsStable ((get_nodes r).length == 2) r)
    (hpr : r.prune = r) :
    Section.prune (update_two_node (sqo_mutated opts r)) = r := by
  have hens : ensure_section r "quorum" = r := ensure_id r "quorum" hrq
  have hm : sqo_mutated opts r = r := by
    unfold sqo_mutated
    rw [hens, hsso]
  rw [hm]
  have hutn : update_two_node r = r := by
    rw [update_two_node_eq_cond r]
    by_cases hb : condBool r = true
    · rw [if_pos hb]
      have hset : two_node_set_prop r := hinv.1 ((two_node_cond_iff r).2 hb)
      rw [hens, sso_tn_id_of_set_prop r hset]
      exact fix_algorithms_id _ r hstable
    · have hb' : condBool r = false := by
        cases hh : condBool r with
        | false => rfl
        | true => exact absurd hh hb
      rw [if_neg (by simp [hb'])]
      have habs : two_node_absent_prop r := by
        refine hinv.2 (fun hc => ?_)
        have h1 := (two_node_cond_iff r).1 hc
        have h2 : ((get_nodes r).length == 2 && !auto_tie_breaker_flag r
            && !has_quorum_device r) = false := hb'
        rw [h1] at h2
        exact absurd h2 (by decide)
      rw [del_tn_id_of_absent r habs]
      exact fix_algorithms_id _ r hstable
  rw [hutn, hpr]

/-- Quorum-less case of the second pipeline: with no quorum section on the
result and a node count other than two, the second run appends an empty
quorum section, leaves it untouched and prunes it away again. -/
theorem sqo_pipeline_id_noquorum (r : Section)
    (hrq : r.children.filter (fun s => s.name == "quorum") = [])
    (htwoN : ((get_nodes r).length == 2) = false)
    (hpr : r.prune = r) :
    Section.prune (update_two_node (sqo_mutated [] r)) = r := by
  have hens : ensure_section r "quorum"
      = Section.mk r.name r.attrs
          (r.children ++ [Section.mk "quorum" [] []]) := by
    unfold ensure_section Section.get_sections_named Section.add_section
    rw [if_pos (by rw [hrq]; rfl)]
  have hm : sqo_mutated [] r
      = Section.mk r.name r.attrs
          (r.children ++ [Section.mk "quorum" [] []]) := by
    unfold sqo_mutated
    rw [sso_empty_opts, hens]
  have hfq : (r.children ++ [Section.mk "quorum" [] []]).filter
      (fun s => s.name == "quorum") = [Section.mk "quorum" [] []] := by
    rw [List.filter_append, hrq]
    rfl
  have hfn : (r.children ++ [Section.mk "quorum" [] []]).filter
      (fun s => s.name == "nodelist")
      = r.children.filter (fun s => s.name == "nodelist") := by
    rw [List.filter_append,
      show ([Section.mk "quorum" [] []].filter
        (fun s => s.name == "nodelist")) = [] from rfl,
      List.append_nil]
  have hgn : get_nodes (Section.mk r.name r.attrs
      (r.children ++ [Section.mk "quorum" [] []])) = get_nodes r :=
    get_nodes_congr r _ (by rw [Section.children_mk]; exact hfn)
  have hcond : condBool (Section.mk r.name r.attrs
      (r.children ++ [Section.mk "quorum" [] []])) = false := by
    unfold condBool
    rw [hgn, htwoN]
    rfl
  have hdelmap : mapNamed "quorum"
      (fun q => q.del_attributes_by_name "two_node")
      (r.children ++ [Section.mk "quorum" [] []])
      = r.children ++ [Section.mk "quorum" [] []] := by
    apply mapNamed_id
    intro s hs hn
    rcases List.mem_append.1 hs with h1 | h2
    · exfalso
      have hmem : s ∈ r.children.filter (fun s => s.name == "quorum") :=
        List.mem_filter.2 ⟨h1, by simp [hn]⟩
      rw [hrq] at hmem
      exact absurd hmem (List.not_mem_nil s)
    · have he : s = Section.mk "quorum" [] [] := List.mem_singleton.1 h2
      subst he
      rfl
  have hstab : ∀ b : Bool, netsStable b (Section.mk r.name r.attrs
      (r.children ++ [Section.mk "quorum" [] []])) := by
    intro b q hq d hd nt hnt
    simp only [Section.children_mk] at hq
    rw [hfq] at hq
    have he : q = Section.mk "quorum" [] [] := List.mem_singleton.1 hq
    subst he
    simp only [Section.children_mk] at hd
    exact absurd hd (by simp)
  have hutn : update_two_node (Section.mk r.name r.attrs
      (r.children ++ [Section.mk "quorum" [] []]))
      = Section.mk r.name r.attrs
          (r.children ++ [Section.mk "quorum" [] []]) := by
    rw [update_two_node_eq_cond, if_neg (by simp [hcond])]
    simp only [Section.name_mk, Section.attrs_mk, Section.children_mk]
    rw [hdelmap]
    exact fix_algorithms_id _ _ (hstab _)
  have hprc : pruneChildren r.children = r.children := by
    have h1 := congrArg Section.children hpr
    rw [prune_children] at h1
    exact h1
  rw [hm, hutn, prune_mk, pruneChildren_append, hprc,
    show pruneChildren [Section.mk "quorum" [] []] = [] from rfl,
    List.append_nil, Section.eta]

/-- Core idempotence of `set_quorum_options` under the amended hypotheses:
the second pipeline maps the first run's result to itself. -/
theorem sqo_idem_core (opts : List (String × String)) (c : Section)
    (hnd : (opts.map Prod.fst).Nodup)
    (hkeys : ∀ nv ∈ opts, nv.1 ∈ QUORUM_OPTIONS)
    (hvals : ∀ nv ∈ opts, nv.2 ≠ "")
    (hnodes : nodes_have_attrs c) :
    Section.prune (update_two_node (sqo_mutated opts
      (Section.prune (update_two_node (sqo_mutated opts c)))))
      = Section.prune (update_two_node (sqo_mutated opts c)) := by
  have hn1 : nodes_have_attrs (sqo_mutated opts c) :=
    nodes_have_attrs_sqo_mutated opts c hnodes
  have hpr : (Section.prune (update_two_node (sqo_mutated opts c))).prune
      = Section.prune (update_two_node (sqo_mutated opts c)) :=
    prune_idem _
  have hinv : two_node_invariant
      (Section.prune (update_two_node (sqo_mutated opts c))) :=
    two_node_invariant_master _ hn1
  have hstable0 : netsStable ((get_nodes (sqo_mutated opts c)).length == 2)
      (update_two_node (sqo_mutated opts c)) := by
    rw [update_two_node_eq_cond]
    exact netsStable_fix _ _
  have hstable1 := netsStable_prune _ _ hstable0
  have htwoNr : ((get_nodes (Section.prune (update_two_node
      (sqo_mutated opts c)))).length == 2)
      = ((get_nodes (sqo_mutated opts c)).length == 2) :=
    twoN_prune_utn _ hn1
  by_cases hrq : (Section.prune (update_two_node
      (sqo_mutated opts c))).children.filter
        (fun s => s.name == "quorum") = []
  · have hopts : opts = [] := by
      by_contra hne
      rcases sqo_u1_state opts c hnd hkeys hvals hne
        with ⟨preU, xU, hdecomp, hx, _, _, _⟩
      rcases List.exists_mem_of_ne_nil opts hne with ⟨nv, hnv⟩
      have hxne : xU.attrs ≠ [] := by
        intro hnil
        have h1 := hx nv.1 nv.2 (by rwa [Prod.mk.eta])
        rw [hnil] at h1
        exact absurd h1 (by simp)
      have hmem : xU.prune ∈ (Section.prune (update_two_node
          (sqo_mutated opts c))).children.filter
            (fun s => s.name == "quorum") := by
        rw [prune_children, filter_name_pruneChildren, hdecomp]
        refine List.mem_filter.2 ⟨List.mem_map_of_mem _ (by simp), ?_⟩
        rw [prune_not_empty_of_attrs xU hxne]
        rfl
      rw [hrq] at hmem
      exact absurd hmem (List.not_mem_nil _)
    subst hopts
    have hatbr : atb_list (Section.prune (update_two_node
        (sqo_mutated [] c))) = [] := by
      rw [atb_list_eq_vATB, hrq]
      rfl
    have hatb1 : atb_list (sqo_mutated [] c) = [] := by
      have h1 : atb_list (Section.prune (update_two_node
          (sqo_mutated [] c))) = atb_list (sqo_mutated [] c) := by
        rw [atb_list_prune, atb_list_update_two_node]
      rw [h1] at hatbr
      exact hatbr
    have hqd1 : has_quorum_device (sqo_mutated [] c) = false := by
      have h2 : has_quorum_device (Section.prune (update_two_node
          (sqo_mutated [] c))) = false := by
        unfold has_quorum_device Section.get_sections_named
        rw [hrq]
        rfl
      have h1 : has_quorum_device (Section.prune (update_two_node
          (sqo_mutated [] c))) = has_quorum_device (sqo_mutated [] c) := by
        rw [has_quorum_device_prune, has_quorum_device_update_two_node]
      rw [h1] at h2
      exact h2
    have htwoN1 : ((get_nodes (sqo_mutated [] c)).length == 2) = false := by
      cases htn : ((get_nodes (sqo_mutated [] c)).length == 2) with
      | false => rfl
      | true =>
          exfalso
          have hflag : auto_tie_breaker_flag (sqo_mutated [] c) = false := by
            unfold auto_tie_breaker_flag
            rw [hatb1]
            rfl
          have hcb : condBool (sqo_mutated [] c) = true := by
            unfold condBool
            rw [htn, hflag, hqd1]
            rfl
          rcases utn_two_node_set (sqo_mutated [] c) hcb
            with ⟨pre1, x1, hfil1, hx1, _⟩
          have hx1ne : x1.attrs ≠ [] := by
            intro hnil
            rw [hnil] at hx1
            exact absurd hx1 (by simp)
          have hmem : x1.prune ∈ (Section.prune (update_two_node
              (sqo_mutated [] c))).children.filter
                (fun s => s.name == "quorum") := by
            rw [prune_children, filter_name_pruneChildren, hfil1]
            refine List.mem_filter.2 ⟨List.mem_map_of_mem _ (by simp), ?_⟩
            rw [prune_not_empty_of_attrs x1 hx1ne]
            rfl
          rw [hrq] at hmem
          exact absurd hmem (List.not_mem_nil _)
    have htwoNr' : ((get_nodes (Section.prune (update_two_node
        (sqo_mutated [] c)))).length == 2) = false := by
      rw [htwoNr, htwoN1]
    exact sqo_pipeline_id_noquorum _ hrq htwoNr' hpr
  · have hsso : set_section_options "quorum" opts
        (Section.prune (update_two_node (sqo_mutated opts c)))
        = Section.prune (update_two_node (sqo_mutated opts c)) := by
      by_cases hoe : opts = []
      · rw [hoe]
        exact sso_empty_opts _ _
      · rcases sqo_r_state opts c hnd hkeys hvals hoe
          with ⟨pre, x, hfil, hx, hpre⟩
        exact sso_id_of_state opts _ hvals pre x hfil hx hpre
    have hstable2 : netsStable ((get_nodes (Section.prune (update_two_node
        (sqo_mutated opts c)))).length == 2)
        (Section.prune (update_two_node (sqo_mutated opts c))) := by
      rw [htwoNr]
      exact hstable1
    exact sqo_pipeline_id opts _ hrq hsso hinv hstable2 hpr

/-- A configuration with two node sections, one of them empty. -/
def c8CexCfg : Section :=
  .mk "" []
    [.mk "nodelist" []
      [.mk "node" [("ring0_addr", "a")] [], .mk "node" [] []]]

/-- Result of the first `set_quorum_options` call on `c8CexCfg`. -/
def c8CexR1 : Section :=
  .mk "" []
    [.mk "nodelist" [] [.mk "node" [("ring0_addr", "a")] []],
     .mk "quorum" [("wait_for_all", "1"), ("two_node", "1")] []]

/-- Result of the second `set_quorum_options` call on `c8CexCfg`. -/
def c8CexR2 : Section :=
  .mk "" []
    [.mk "nodelist" [] [.mk "node" [("ring0_addr", "a")] []],
     .mk "quorum" [("wait_for_all", "1")] []]

/-- Claim C8, counterexample: on a configuration with an empty node section,
calling `set_quorum_options` twice with the same allowed, nonempty-valued
option map and a non-raising report processor yields a different final tree
than calling it once — the first call prunes the empty node section, so the
second call sees one node instead of two and removes the `two_node` attribute
the first call had set. -/
theorem claim_C8_counterexample :
    set_quorum_options (fun _ => false) [("wait_for_all", "1")] c8CexCfg
      = .ok c8CexR1
    ∧ set_quorum_options (fun _ => false) [("wait_for_all", "1")] c8CexR1
      = .ok c8CexR2
    ∧ c8CexR1 ≠ c8CexR2 := by
  refine ⟨rfl, rfl, fun h => ?_⟩
  have h2 := congrArg
    (fun s => (s.children.filter (fun q => q.name == "quorum")).map
      (fun q => q.attrs.length)) h
  exact absurd h2 (by decide)

/-- Claim C8 (amended): provided every node section carries at least one
attribute, for every option map with distinct keys that are allowed quorum
options and values that are all nonempty, and a report processor that does
not raise on its validation, a second `set_quorum_options` call with the
same map returns exactly the tree the first call produced. -/
theorem claim_C8_idempotent (rp : List ReportItem → Bool)
    (opts : List (String × String)) (c c1 : Section)
    (hnd : (opts.map Prod.fst).Nodup)
    (hkeys : ∀ nv ∈ opts, nv.1 ∈ QUORUM_OPTIONS)
    (hvals : ∀ nv ∈ opts, nv.2 ≠ "")
    (hnodes : nodes_have_attrs c)
    (hrp : rp (validate_quorum_options opts) = false)
    (h1 : set_quorum_options rp opts c = .ok c1) :
    set_quorum_options rp opts c1 = .ok c1 := by
  have hc1 := set_quorum_options_ok rp opts c c1 h1
  unfold set_quorum_options
  rw [if_neg (by simp [hrp])]
  subst hc1
  exact congrArg Except.ok (sqo_idem_core opts c hnd hkeys hvals hnodes)

/-- A two-node configuration whose node sections carry attributes. -/
def c8WitCfg : Section :=
  .mk "" []
    [.mk "nodelist" []
      [.mk "node" [("ring0_addr", "a")] [],
       .mk "node" [("ring0_addr", "b")] []]]

/-- First-call result of `set_quorum_options` on `c8WitCfg`. -/
def c8WitR : Section :=
  .mk "" []
    [.mk "nodelist" []
      [.mk "node" [("ring0_addr", "a")] [],
       .mk "node" [("ring0_addr", "b")] []],
     .mk "quorum" [("wait_for_all", "1"), ("two_node", "1")] []]

/-- Claim C8, witness: on a concrete two-node configuration the amended
idempotence theorem applies and the second call reproduces the first
result. -/
theorem claim_C8_witness :
    set_quorum_options (fun _ => false) [("wait_for_all", "1")] c8WitCfg
      = .ok c8WitR
    ∧ set_quorum_options (fun _ => false) [("wait_for_all", "1")] c8WitR
      = .ok c8WitR :=
  ⟨rfl,
   claim_C8_idempotent (fun _ => false) [("wait_for_all", "1")] c8WitCfg
     c8WitR (by decide) (by decide) (by decide) (by decide) rfl rfl⟩
